import Mathlib

/-!
Verification of the deal_finder ingestion/deduplication pipeline.

Each definition below is a shallow embedding of a function of the Python
source (file and symbol named in its doc comment).  Machine-level details
are modeled as follows: SQLite tables become lists of rows keyed by URL,
`datetime` values become integers or ISO strings passed explicitly,
`Decimal` monetary values become rationals, and the SHA-256 canonical-key
hash becomes the hashed tuple itself (the code only ever compares keys for
equality, and the hash is deterministic).  String operations are modeled
character-listwise for ASCII text.
-/

namespace DealFinder

/-! ## Text utilities (src/deal_finder/utils/text.py) -/

/-- Python whitespace class matched by the regex \s (ASCII range). -/
def isPySpace (c : Char) : Bool :=
  c == ' ' || c == '\t' || c == '\n' || c == '\r' || c == '\x0b' || c == '\x0c'

/-- Collapse every run of whitespace characters to a single space
(the re.sub of a whitespace-run by one space in normalize_text). -/
def collapseSpaces : List Char → List Char
  | [] => []
  | [c] => [if isPySpace c then ' ' else c]
  | c :: d :: rest =>
    if isPySpace c && isPySpace d then collapseSpaces (d :: rest)
    else (if isPySpace c then ' ' else c) :: collapseSpaces (d :: rest)

/-- Remove leading and trailing whitespace (str.strip). -/
def stripEnds (l : List Char) : List Char :=
  ((l.dropWhile isPySpace).reverse.dropWhile isPySpace).reverse

/-- normalize_text from utils/text.py: ASCII-fold (NFKD is the identity on
ASCII; non-ASCII characters are dropped by the ascii encode/decode),
lowercase, collapse whitespace runs, strip. -/
def normalize_text (s : String) : String :=
  ⟨stripEnds (collapseSpaces ((s.data.filter (fun c => c.toNat < 128)).map Char.toLower))⟩

/-- Python str.lower, modeled for ASCII characters. -/
def lowerAscii (s : String) : String :=
  ⟨s.data.map Char.toLower⟩

/-- Python substring membership test (the `kw in url` operator). -/
def strContainsSub (s sub : String) : Bool :=
  decide (sub.data <:+: s.data)

/-! ## Deal records (src/deal_finder/models.py)

Only the fields consulted by the deduplication code are modeled; dates are
day numbers (date subtraction in Python yields exact day differences, and
date.isoformat / strftime are injective, so equality and difference of day
numbers are faithful). -/

/-- Pre-image of the SHA-256 canonical key: the normalized components that
are concatenated and hashed in generate_canonical_key.  The code only
compares keys for equality, so the hash is modeled by its input tuple. -/
abbrev CanonicalKey := String × String × String × Int

/-- Deal record (models.py), restricted to the fields read by the
deduplicators.  total_deal_value_usd is a Decimal-or-None in the source. -/
structure Deal where
  target : String
  acquirer : String
  asset_focus : String
  date_announced : Int
  source_url : String
  total_deal_value_usd : Option Rat
  related_urls : List String
  canonical_key : Option CanonicalKey
deriving DecidableEq, Repr

namespace Deduplicator

/-- Deduplicator.generate_canonical_key: hash of
(normalized target | normalized acquirer | normalized asset | ISO date). -/
def generate_canonical_key (deal : Deal) : CanonicalKey :=
  (normalize_text deal.target, normalize_text deal.acquirer,
   normalize_text deal.asset_focus, deal.date_announced)

/-- Fuzzy duplicate test shared by Deduplicator.is_duplicate (second loop)
and Deduplicator._is_fuzzy_match: event dates within the window and all
three normalized descriptors equal. -/
def is_fuzzy_match (deal1 deal2 : Deal) (date_window_days : Nat := 3) : Bool :=
  decide ((deal1.date_announced - deal2.date_announced).natAbs ≤ date_window_days) &&
  (decide (normalize_text deal1.target = normalize_text deal2.target) &&
   decide (normalize_text deal1.acquirer = normalize_text deal2.acquirer) &&
   decide (normalize_text deal1.asset_focus = normalize_text deal2.asset_focus))

/-- Deduplicator.is_duplicate: exact canonical-key match against any
existing deal, else fuzzy match within the date window. -/
def is_duplicate (deal : Deal) (existing_deals : List Deal)
    (date_window_days : Nat := 3) : Bool :=
  let deal_key := generate_canonical_key deal
  existing_deals.any (fun e => decide (e.canonical_key = some deal_key)) ||
  existing_deals.any (fun e => is_fuzzy_match deal e date_window_days)

/-- URL keywords marking an authoritative press-release source
(primary_keywords in Deduplicator.merge_duplicates). -/
def primary_keywords : List String :=
  ["prnewswire", "businesswire", "globenewswire", "newsroom", "press"]

/-- Test whether a source URL matches one of the press-release keywords
(the `any(kw in url_lower ...)` checks in merge_duplicates). -/
def isPressUrl (url : String) : Bool :=
  primary_keywords.any (fun kw => strContainsSub (lowerAscii url) kw)

/-- Deduplicator.merge_duplicates: the press-release record survives; if
both or neither are press releases the earlier-dated record survives
(deal1 on ties).  The loser's source URL joins the survivor's
related_urls (Python's list(set(..)) is modeled by List.dedup, which has
the same membership). -/
def merge_duplicates (deal1 deal2 : Deal) : Deal :=
  let deal1_is_press := isPressUrl deal1.source_url
  let deal2_is_press := isPressUrl deal2.source_url
  let pr : Deal × Deal :=
    if deal1_is_press && !deal2_is_press then (deal1, deal2)
    else if deal2_is_press && !deal1_is_press then (deal2, deal1)
    else if deal1.date_announced ≤ deal2.date_announced then (deal1, deal2)
    else (deal2, deal1)
  { pr.1 with related_urls := (pr.1.related_urls ++ [pr.2.source_url]).dedup }

/-- The replacement loop in Deduplicator.deduplicate: merge the incoming
deal into the first existing deal whose key matches exactly or fuzzily. -/
def mergeIntoFirstMatch (deal : Deal) : List Deal → List Deal
  | [] => []
  | e :: rest =>
    if decide (e.canonical_key = deal.canonical_key) || is_fuzzy_match deal e then
      merge_duplicates e deal :: rest
    else e :: mergeIntoFirstMatch deal rest

/-- The assignment `deal.canonical_key = self.generate_canonical_key(deal)`
performed at the top of the deduplicate loop body. -/
def withKey (deal : Deal) : Deal :=
  { deal with canonical_key := some (generate_canonical_key deal) }

/-- The for-loop of Deduplicator.deduplicate, one iteration per deal:
append the deal when it duplicates nothing seen so far, otherwise merge it
into the first matching survivor. -/
def deduplicateAux : List Deal → List Deal → List Deal
  | unique_deals, [] => unique_deals
  | unique_deals, deal :: rest =>
    let dealK := withKey deal
    if !(is_duplicate dealK unique_deals) then
      deduplicateAux (unique_deals ++ [dealK]) rest
    else
      deduplicateAux (mergeIntoFirstMatch dealK unique_deals) rest

/-- Deduplicator.deduplicate.  (The seen_keys set in the source is written
but never read, so it is not modeled.) -/
def deduplicate (deals : List Deal) : List Deal :=
  deduplicateAux [] deals

end Deduplicator

end DealFinder

namespace DealFinder

/-- C1: two records with equal normalized target, acquirer and asset
descriptor are merged into one surviving record by Deduplicator.deduplicate
when their event dates are at most the default window of 3 days apart, and
are kept as two separate records when more than 3 days apart. -/
theorem C1_dedup_merges_within_default_date_window (r1 r2 : Deal)
    (ht : normalize_text r1.target = normalize_text r2.target)
    (ha : normalize_text r1.acquirer = normalize_text r2.acquirer)
    (hx : normalize_text r1.asset_focus = normalize_text r2.asset_focus) :
    ((r1.date_announced - r2.date_announced).natAbs ≤ 3 →
      (Deduplicator.deduplicate [r1, r2]).length = 1) ∧
    (3 < (r1.date_announced - r2.date_announced).natAbs →
      (Deduplicator.deduplicate [r1, r2]).length = 2) := by
  have h0 : Deduplicator.is_duplicate (Deduplicator.withKey r1) [] 3 = false := by
    simp [Deduplicator.is_duplicate]
  constructor
  · intro hwin
    have hfuzz : Deduplicator.is_fuzzy_match
        (Deduplicator.withKey r2) (Deduplicator.withKey r1) 3 = true := by
      simp [Deduplicator.is_fuzzy_match, Deduplicator.withKey, ht.symm, ha.symm, hx.symm]
      omega
    have hdup : Deduplicator.is_duplicate
        (Deduplicator.withKey r2) [Deduplicator.withKey r1] 3 = true := by
      simp [Deduplicator.is_duplicate, hfuzz]
    simp [Deduplicator.deduplicate, Deduplicator.deduplicateAux, h0, hdup,
      Deduplicator.mergeIntoFirstMatch, hfuzz]
  · intro hfar
    have hne : r1.date_announced ≠ r2.date_announced := by omega
    have hfuzz : Deduplicator.is_fuzzy_match
        (Deduplicator.withKey r2) (Deduplicator.withKey r1) 3 = false := by
      simp [Deduplicator.is_fuzzy_match, Deduplicator.withKey, ht.symm, ha.symm, hx.symm]
      omega
    have hdup : Deduplicator.is_duplicate
        (Deduplicator.withKey r2) [Deduplicator.withKey r1] 3 = false := by
      simp only [Deduplicator.is_duplicate, List.any_cons, List.any_nil,
        Bool.or_false, hfuzz]
      simp [Deduplicator.withKey, Deduplicator.generate_canonical_key, ht, ha, hx, hne]
    simp [Deduplicator.deduplicate, Deduplicator.deduplicateAux, h0, hdup]

/-- Concrete deal used by the C1 witness. -/
def c1DealBase : Deal :=
  { target := "Acme Bio", acquirer := "BigPharma Inc", asset_focus := "oncology asset",
    date_announced := 0, source_url := "https://example.com/a",
    total_deal_value_usd := none, related_urls := [], canonical_key := none }

/-- The C1 base deal reported one day later from a second source. -/
def c1DealNear : Deal :=
  { c1DealBase with date_announced := 1, source_url := "https://example.com/b" }

/-- The C1 base deal reported thirty days later from a second source. -/
def c1DealFar : Deal :=
  { c1DealBase with date_announced := 30, source_url := "https://example.com/b" }

/-- C1 witness: the pair one day apart collapses to one record, the pair
thirty days apart stays two records. -/
theorem C1_witness :
    (Deduplicator.deduplicate [c1DealBase, c1DealNear]).length = 1 ∧
    (Deduplicator.deduplicate [c1DealBase, c1DealFar]).length = 2 :=
  ⟨(C1_dedup_merges_within_default_date_window c1DealBase c1DealNear
      rfl rfl rfl).1 (by decide),
   (C1_dedup_merges_within_default_date_window c1DealBase c1DealFar
      rfl rfl rfl).2 (by decide)⟩

/-! ## Claim C6: merge policy of Deduplicator.merge_duplicates -/

/-- Property language for the merge policy: after merging deal1 and deal2,
the merged record agrees with the winner on every substantive field and
retains the loser's source URL in its cross-reference list. -/
def survivorSpec (deal1 deal2 winner loser : Deal) : Prop :=
  (Deduplicator.merge_duplicates deal1 deal2).target = winner.target ∧
  (Deduplicator.merge_duplicates deal1 deal2).acquirer = winner.acquirer ∧
  (Deduplicator.merge_duplicates deal1 deal2).source_url = winner.source_url ∧
  (Deduplicator.merge_duplicates deal1 deal2).date_announced = winner.date_announced ∧
  (Deduplicator.merge_duplicates deal1 deal2).total_deal_value_usd
      = winner.total_deal_value_usd ∧
  loser.source_url ∈ (Deduplicator.merge_duplicates deal1 deal2).related_urls

/-- First deal of the C6 counterexample: no press-release URL, no monetary
value, earlier event date. -/
def c6NoValueEarly : Deal :=
  { target := "T", acquirer := "A", asset_focus := "X",
    date_announced := 0, source_url := "https://site-one.example/a",
    total_deal_value_usd := none, related_urls := [], canonical_key := none }

/-- Second deal of the C6 counterexample: no press-release URL, a populated
monetary value of 100, later event date. -/
def c6ValueLate : Deal :=
  { target := "T", acquirer := "A", asset_focus := "X",
    date_announced := 1, source_url := "https://site-two.example/b",
    total_deal_value_usd := some 100, related_urls := [], canonical_key := none }

/-- C6 counterexample: neither record matches an authoritative-source
pattern and only the second has a populated monetary value, so the claimed
policy picks the second; merge_duplicates instead keeps the first (earlier
date) and discards the value — monetary values are never consulted. -/
theorem C6_counterexample_value_not_consulted :
    Deduplicator.isPressUrl c6NoValueEarly.source_url = false ∧
    Deduplicator.isPressUrl c6ValueLate.source_url = false ∧
    c6NoValueEarly.total_deal_value_usd = none ∧
    c6ValueLate.total_deal_value_usd = some 100 ∧
    (Deduplicator.merge_duplicates c6NoValueEarly c6ValueLate).source_url
        = c6NoValueEarly.source_url ∧
    (Deduplicator.merge_duplicates c6NoValueEarly c6ValueLate).total_deal_value_usd
        = none := by
  decide

/-- C6 (amended): the survivor of merge_duplicates is the record whose URL
matches a press-release pattern when exactly one does; otherwise the record
with the earlier event date (deal1 on ties) — monetary values are not
consulted.  The loser's source URL is added to the survivor's
cross-reference list. -/
theorem C6_amended_merge_policy (d1 d2 : Deal) :
    (Deduplicator.isPressUrl d1.source_url = true →
      Deduplicator.isPressUrl d2.source_url = false → survivorSpec d1 d2 d1 d2) ∧
    (Deduplicator.isPressUrl d2.source_url = true →
      Deduplicator.isPressUrl d1.source_url = false → survivorSpec d1 d2 d2 d1) ∧
    (Deduplicator.isPressUrl d1.source_url = Deduplicator.isPressUrl d2.source_url →
      (d1.date_announced ≤ d2.date_announced → survivorSpec d1 d2 d1 d2) ∧
      (d2.date_announced < d1.date_announced → survivorSpec d1 d2 d2 d1)) := by
  refine ⟨?_, ?_, ?_⟩
  · intro h1 h2
    simp [survivorSpec, Deduplicator.merge_duplicates, h1, h2]
  · intro h2 h1
    simp [survivorSpec, Deduplicator.merge_duplicates, h1, h2]
  · intro hpp
    constructor
    · intro hd
      simp [survivorSpec, Deduplicator.merge_duplicates, ← hpp, hd]
    · intro hd
      simp [survivorSpec, Deduplicator.merge_duplicates, ← hpp, not_le.mpr hd]

/-- Press-release-sourced deal for the C6 witness. -/
def c6PressDeal : Deal :=
  { target := "T", acquirer := "A", asset_focus := "X",
    date_announced := 5, source_url := "https://www.prnewswire.com/release/1",
    total_deal_value_usd := none, related_urls := [], canonical_key := none }

/-- C6 witness: with a press-release URL against a plain news URL, the
press-release record survives and the other URL is cross-referenced. -/
theorem C6_amended_witness : survivorSpec c6PressDeal c6ValueLate c6PressDeal c6ValueLate :=
  (C6_amended_merge_policy c6PressDeal c6ValueLate).1 (by decide) (by decide)

/-! ## String comparison (Python string ordering, code-point lexicographic) -/

/-- Lexicographic strictly-less on character lists (Python str <). -/
def charListLt : List Char → List Char → Bool
  | [], [] => false
  | [], _ :: _ => true
  | _ :: _, [] => false
  | c :: cs, d :: ds => if c < d then true else if d < c then false else charListLt cs ds

/-- Lexicographic less-or-equal on character lists (Python str <=). -/
def charListLe : List Char → List Char → Bool
  | [], _ => true
  | _ :: _, [] => false
  | c :: cs, d :: ds => if c < d then true else if d < c then false else charListLe cs ds

/-- Python string strictly-less (code-point lexicographic order, which is
also how SQLite and ChromaDB compare the TEXT date columns here). -/
def pyStrLt (a b : String) : Bool := charListLt a.data b.data

/-- Python string less-or-equal. -/
def pyStrLe (a b : String) : Bool := charListLe a.data b.data

/-! ## Content Store (src/deal_finder/storage/content_cache.py)

The SQLite articles table becomes a list of rows with url as primary key;
timestamps from datetime.now are passed explicitly by callers. -/

/-- The embedding_status column: pending, embedded or failed. -/
inductive EmbeddingStatus
  | pending
  | embedded
  | failed
deriving DecidableEq, Repr

/-- One row of the articles table (ContentCache._create_tables). -/
structure ArticleRow where
  url : String
  title : String
  content : String
  published_date : String
  source : String
  fetched_at : String
  embedding_status : EmbeddingStatus
  embedded_at : Option String
  error_message : Option String
  lastmod : Option String
deriving DecidableEq, Repr

/-- The articles table of one ContentCache database. -/
structure ContentCache where
  rows : List ArticleRow
deriving DecidableEq, Repr

namespace ContentCache

/-- ContentCache.upsert_article: INSERT with status pending, or on URL
conflict update the row in place, resetting embedding_status to pending and
clearing embedded_at and error_message. -/
def upsert_article (c : ContentCache)
    (url title content published_date source : String)
    (lastmod : Option String) (fetched_at : String) : ContentCache :=
  if c.rows.any (fun r => decide (r.url = url)) then
    { rows := c.rows.map (fun r =>
        if decide (r.url = url) then
          { r with
            title := title, content := content,
            published_date := published_date, source := source,
            fetched_at := fetched_at, lastmod := lastmod,
            embedding_status := .pending, embedded_at := none,
            error_message := none }
        else r) }
  else
    { rows := c.rows ++ [{
        url := url, title := title, content := content,
        published_date := published_date, source := source,
        fetched_at := fetched_at, embedding_status := .pending,
        embedded_at := none, error_message := none, lastmod := lastmod }] }

/-- Insert a row into a list sorted by fetched_at (helper realizing the
ORDER BY fetched_at ASC clause of get_pending_articles; the sort is stable,
ties keep table order, which SQLite leaves unspecified). -/
def insertByFetched (r : ArticleRow) : List ArticleRow → List ArticleRow
  | [] => [r]
  | s :: rest =>
    if pyStrLe r.fetched_at s.fetched_at then r :: s :: rest
    else s :: insertByFetched r rest

/-- Sort rows by fetched_at ascending (ORDER BY fetched_at ASC). -/
def sortByFetchedAt (l : List ArticleRow) : List ArticleRow :=
  l.foldr insertByFetched []

/-- ContentCache.get_pending_articles: SELECT rows WHERE
embedding_status = pending ORDER BY fetched_at ASC, with LIMIT/OFFSET
appended only when the Python limit argument is truthy (None and 0 both
disable it). -/
def get_pending_articles (c : ContentCache) (limit : Option Nat)
    (offset : Nat := 0) : List ArticleRow :=
  let sorted := sortByFetchedAt
    (c.rows.filter (fun r => decide (r.embedding_status = .pending)))
  match limit with
  | none => sorted
  | some n => if n = 0 then sorted else (sorted.drop offset).take n

/-- The UPDATE applied by mark_embedded to each row matching the url. -/
def markRow (url : String) (success : Bool) (error_message : Option String)
    (embedded_at : String) (r : ArticleRow) : ArticleRow :=
  if decide (r.url = url) then
    { r with
      embedding_status := if success then .embedded else .failed,
      embedded_at := some embedded_at, error_message := error_message }
  else r

/-- ContentCache.mark_embedded: set the row's status to embedded or failed,
record the timestamp and store the error message (None on success). -/
def mark_embedded (c : ContentCache) (url : String) (success : Bool)
    (error_message : Option String) (embedded_at : String) : ContentCache :=
  { rows := c.rows.map (markRow url success error_message embedded_at) }

/-- ContentCache.mark_embedded_batch: set status and timestamp for every
row whose URL is in the list (error_message is left untouched). -/
def mark_embedded_batch (c : ContentCache) (urls : List String)
    (success : Bool) (embedded_at : String) : ContentCache :=
  { rows := c.rows.map (fun r =>
      if urls.contains r.url then
        { r with
          embedding_status := if success then .embedded else .failed,
          embedded_at := some embedded_at }
      else r) }

/-- The pending count reported by ContentCache.get_stats (the by_status
entry the Embedding Indexer reads). -/
def pendingCount (c : ContentCache) : Nat :=
  (c.rows.filter (fun r => decide (r.embedding_status = .pending))).length

end ContentCache

/-- Inserting into the fetched_at-sorted list is a permutation. -/
theorem insertByFetched_perm (r : ArticleRow) (l : List ArticleRow) :
    (ContentCache.insertByFetched r l).Perm (r :: l) := by
  induction l with
  | nil => simp [ContentCache.insertByFetched]
  | cons s rest ih =>
    simp only [ContentCache.insertByFetched]
    by_cases h : pyStrLe r.fetched_at s.fetched_at = true
    · simp [h]
    · simp only [Bool.not_eq_true] at h
      simp only [h, Bool.false_eq_true, if_false]
      exact (List.Perm.cons s ih).trans (List.Perm.swap r s rest)

/-- Sorting by fetched_at is a permutation of the input. -/
theorem sortByFetchedAt_perm (l : List ArticleRow) :
    (ContentCache.sortByFetchedAt l).Perm l := by
  induction l with
  | nil => simp [ContentCache.sortByFetchedAt]
  | cons r rest ih =>
    simpa [ContentCache.sortByFetchedAt] using
      (insertByFetched_perm r (ContentCache.sortByFetchedAt rest)).trans
        (List.Perm.cons r ih)

/-- A pending row of the table appears in the unlimited get_pending result. -/
theorem mem_get_pending_of_pending (c : ContentCache) (r : ArticleRow)
    (hr : r ∈ c.rows) (hp : r.embedding_status = .pending) :
    r ∈ ContentCache.get_pending_articles c none 0 := by
  simp only [ContentCache.get_pending_articles]
  exact (sortByFetchedAt_perm _).mem_iff.mpr (List.mem_filter.mpr ⟨hr, by simp [hp]⟩)

/-- C2: for every cache state (hence every prior status of the URL),
upsert_article followed by get_pending_articles with no intervening
mark_embedded yields a result set containing that URL with status pending
and with embedded_at and error_message cleared. -/
theorem C2_upsert_then_get_pending_includes_url (c : ContentCache)
    (url title content published_date source : String)
    (lastmod : Option String) (fetched_at : String) :
    ∃ r ∈ ContentCache.get_pending_articles
        (ContentCache.upsert_article c url title content published_date source
          lastmod fetched_at) none 0,
      r.url = url ∧ r.embedding_status = .pending ∧
      r.embedded_at = none ∧ r.error_message = none := by
  simp only [ContentCache.upsert_article]
  by_cases hex : c.rows.any (fun r => decide (r.url = url)) = true
  · simp only [hex, if_true]
    obtain ⟨r0, hr0, hr0u⟩ := List.any_eq_true.mp hex
    have hr0u : r0.url = url := of_decide_eq_true hr0u
    refine ⟨{ r0 with
              title := title, content := content,
              published_date := published_date, source := source,
              fetched_at := fetched_at, lastmod := lastmod,
              embedding_status := .pending, embedded_at := none,
              error_message := none }, ?_, by simp [hr0u], by simp, by simp, by simp⟩
    apply mem_get_pending_of_pending
    · refine List.mem_map.mpr ⟨r0, hr0, ?_⟩
      simp [hr0u]
    · simp
  · simp only [hex, Bool.false_eq_true, if_false]
    refine ⟨{ url := url, title := title, content := content,
              published_date := published_date, source := source,
              fetched_at := fetched_at, embedding_status := .pending,
              embedded_at := none, error_message := none, lastmod := lastmod },
            ?_, rfl, rfl, rfl, rfl⟩
    apply mem_get_pending_of_pending
    · simp
    · rfl

/-! ## Crawl Index (src/deal_finder/discovery/url_index.py)

Metadata dictionaries are association lists; the crawled_at bookkeeping key
added by mark_crawled is never read by any modeled code and is omitted. -/

/-- Per-URL metadata dict (values may be None). -/
abbrev URLMeta := List (String × Option String)

/-- In-memory state of URLIndex: the crawled-URL set and metadata map. -/
structure URLIndex where
  crawled_urls : List String
  url_metadata : List (String × URLMeta)
deriving DecidableEq, Repr

namespace URLIndex

/-- The payload of a successfully parsed url_index.json file. -/
structure IndexData where
  crawled_urls : List String
  url_metadata : List (String × URLMeta)
deriving DecidableEq, Repr

/-- The fresh empty index. -/
def empty : URLIndex := { crawled_urls := [], url_metadata := [] }

/-- URLIndex.load: a missing file starts fresh; a file whose JSON parse or
field extraction raises is caught by the except branch and also degrades to
the empty index; otherwise the parsed data is installed.  The file content
and the json.load step are passed explicitly (disk and json are external). -/
def load (file : Option String)
    (parseIndexFile : String → Option IndexData) : URLIndex :=
  match file with
  | none => empty
  | some raw =>
    match parseIndexFile raw with
    | some d => { crawled_urls := d.crawled_urls, url_metadata := d.url_metadata }
    | none => empty

/-- URLIndex.is_crawled: membership in the crawled-URL set. -/
def is_crawled (idx : URLIndex) (url : String) : Bool :=
  idx.crawled_urls.contains url

/-- URLIndex.mark_crawled: add the URL to the set (a Python set add is a
no-op when present) and store the metadata when given. -/
def mark_crawled (idx : URLIndex) (url : String)
    (metadata : Option URLMeta) : URLIndex :=
  { crawled_urls :=
      if idx.crawled_urls.contains url then idx.crawled_urls
      else idx.crawled_urls ++ [url],
    url_metadata :=
      match metadata with
      | some m => (idx.url_metadata.filter (fun p => !(p.1 == url))) ++ [(url, m)]
      | none => idx.url_metadata }

/-- URLIndex.mark_batch_crawled: mark each URL with a source-only dict. -/
def mark_batch_crawled (idx : URLIndex) (urls : List String)
    (source : String) : URLIndex :=
  urls.foldl (fun i u => i.mark_crawled u (some [("source", some source)])) idx

/-- URLIndex.reset: drop all URLs and metadata. -/
def reset (_idx : URLIndex) : URLIndex :=
  { crawled_urls := [], url_metadata := [] }

end URLIndex

/-- An operation performed on the index between runs. -/
inductive IndexOp
  | markOp (url : String) (metadata : Option URLMeta)
  | markBatchOp (urls : List String) (source : String)
  | resetOp
deriving DecidableEq, Repr

/-- Apply one index operation. -/
def applyIndexOp (idx : URLIndex) : IndexOp → URLIndex
  | .markOp url m => idx.mark_crawled url m
  | .markBatchOp urls src => idx.mark_batch_crawled urls src
  | .resetOp => idx.reset

/-- Apply a sequence of index operations left to right. -/
def applyIndexOps (idx : URLIndex) (ops : List IndexOp) : URLIndex :=
  ops.foldl applyIndexOp idx

/-- Marking any URL preserves membership of every already-known URL. -/
theorem is_crawled_mark_mono (idx : URLIndex) (url : String)
    (m : Option URLMeta) (u : String) (h : idx.is_crawled u = true) :
    (idx.mark_crawled url m).is_crawled u = true := by
  simp [URLIndex.is_crawled, URLIndex.mark_crawled] at h ⊢
  split
  · exact h
  · exact List.mem_append_left _ h

/-- A freshly marked URL is known. -/
theorem is_crawled_mark_self (idx : URLIndex) (url : String)
    (m : Option URLMeta) : (idx.mark_crawled url m).is_crawled url = true := by
  simp [URLIndex.is_crawled, URLIndex.mark_crawled]
  split <;> simp_all

/-- Batch marking preserves membership of every already-known URL. -/
theorem is_crawled_markBatch_mono (urls : List String) (idx : URLIndex)
    (source : String) (u : String) (h : idx.is_crawled u = true) :
    (idx.mark_batch_crawled urls source).is_crawled u = true := by
  induction urls generalizing idx with
  | nil => simpa [URLIndex.mark_batch_crawled] using h
  | cons v rest ih =>
    simp only [URLIndex.mark_batch_crawled, List.foldl] at ih ⊢
    exact ih _ (is_crawled_mark_mono idx v _ u h)

/-- Any reset-free operation sequence preserves membership. -/
theorem is_crawled_applyIndexOps (ops : List IndexOp) (idx : URLIndex)
    (u : String) (hops : IndexOp.resetOp ∉ ops) (h : idx.is_crawled u = true) :
    (applyIndexOps idx ops).is_crawled u = true := by
  induction ops generalizing idx with
  | nil => simpa [applyIndexOps] using h
  | cons op rest ih =>
    simp only [applyIndexOps, List.foldl] at ih ⊢
    have hop : op ≠ IndexOp.resetOp := fun he => hops (by simp [he])
    have hrest : IndexOp.resetOp ∉ rest := fun he => hops (by simp [he])
    refine ih _ hrest ?_
    cases op with
    | markOp url m => exact is_crawled_mark_mono idx url m u h
    | markBatchOp urls src => exact is_crawled_markBatch_mono urls idx src u h
    | resetOp => exact absurd rfl hop

/-- C9: when the persisted index file is present but unparseable, load
returns the empty index — no known URLs, no metadata, every membership
query false — instead of raising (load is total). -/
theorem C9_corrupt_index_file_degrades_to_empty (raw : String)
    (parseIndexFile : String → Option URLIndex.IndexData)
    (h : parseIndexFile raw = none) :
    URLIndex.load (some raw) parseIndexFile = URLIndex.empty ∧
    (URLIndex.load (some raw) parseIndexFile).crawled_urls = [] ∧
    (URLIndex.load (some raw) parseIndexFile).url_metadata = [] ∧
    ∀ u, (URLIndex.load (some raw) parseIndexFile).is_crawled u = false := by
  refine ⟨by simp [URLIndex.load, h], by simp [URLIndex.load, h, URLIndex.empty],
    by simp [URLIndex.load, h, URLIndex.empty], fun u => ?_⟩
  simp [URLIndex.load, h, URLIndex.empty, URLIndex.is_crawled]

/-- C9 witness: a file whose parse fails loads as the empty index. -/
theorem C9_witness :
    URLIndex.load (some "corrupt ### not json") (fun _ => none) = URLIndex.empty :=
  (C9_corrupt_index_file_degrades_to_empty "corrupt ### not json"
    (fun _ => none) rfl).1

/-! ## Incremental crawl (src/deal_finder/discovery/exhaustive_crawler.py,
crawl_all_sites).  Per-site article lists are the crawl_site results, which
depend on the network and are therefore inputs of the model. -/

/-- An article dict produced by crawl_site. -/
structure CrawledArticle where
  url : String
  title : String
  published_date : Option String
  source : String
deriving DecidableEq, Repr

/-- The inner loop of crawl_all_sites with the index enabled: keep an
article only when the index does not know its URL and it was not already
seen this run; each kept URL is marked crawled immediately. -/
def filterNewArticles (site_name : String) :
    List CrawledArticle → List String → URLIndex →
      List CrawledArticle × List String × URLIndex
  | [], seen, idx => ([], seen, idx)
  | a :: rest, seen, idx =>
    if !(idx.is_crawled a.url) && !(seen.contains a.url) then
      let idx1 := idx.mark_crawled a.url
        (some [("source", some site_name), ("published_date", a.published_date)])
      let res := filterNewArticles site_name rest (seen ++ [a.url]) idx1
      (a :: res.1, res.2.1, res.2.2)
    else
      filterNewArticles site_name rest seen idx

/-- The inner loop of crawl_all_sites with the index disabled: only the
within-run seen set deduplicates. -/
def filterSeenOnly : List CrawledArticle → List String →
    List CrawledArticle × List String
  | [], seen => ([], seen)
  | a :: rest, seen =>
    if !(seen.contains a.url) then
      let res := filterSeenOnly rest (seen ++ [a.url])
      (a :: res.1, res.2)
    else
      filterSeenOnly rest seen

/-- The site loop of ExhaustiveSiteCrawler.crawl_all_sites, accumulating
kept articles, the seen set and the evolving index. -/
def crawlAllSitesAux (use_index : Bool) :
    List (String × List CrawledArticle) → List CrawledArticle →
      List String → URLIndex → List CrawledArticle × URLIndex
  | [], acc, _seen, idx => (acc, idx)
  | (site_name, articles) :: rest, acc, seen, idx =>
    if use_index then
      let res := filterNewArticles site_name articles seen idx
      crawlAllSitesAux use_index rest (acc ++ res.1) res.2.1 res.2.2
    else
      let res := filterSeenOnly articles seen
      crawlAllSitesAux use_index rest (acc ++ res.1) res.2 idx

/-- ExhaustiveSiteCrawler.crawl_all_sites: walk every site, keeping only
new articles when the index is enabled, and return them with the updated
index (which the source then saves). -/
def crawl_all_sites (sites : List (String × List CrawledArticle))
    (use_index : Bool) (idx : URLIndex) : List CrawledArticle × URLIndex :=
  crawlAllSitesAux use_index sites [] [] idx

/-- With the index enabled, a URL the index already knows is excluded from
the articles kept by the inner loop, and stays known afterwards. -/
theorem filterNewArticles_excludes_known (site_name : String)
    (arts : List CrawledArticle) (seen : List String) (idx : URLIndex)
    (u : String) (h : idx.is_crawled u = true) :
    (∀ a ∈ (filterNewArticles site_name arts seen idx).1, a.url ≠ u) ∧
    (filterNewArticles site_name arts seen idx).2.2.is_crawled u = true := by
  induction arts generalizing seen idx with
  | nil => exact ⟨by simp [filterNewArticles], by simpa [filterNewArticles] using h⟩
  | cons a rest ih =>
    simp only [filterNewArticles]
    by_cases hnew : (!(idx.is_crawled a.url) && !(seen.contains a.url)) = true
    · rw [if_pos hnew]
      have hnot : (!(idx.is_crawled a.url)) = true := by
        rcases Bool.and_eq_true_iff.mp hnew with ⟨h1, _⟩
        exact h1
      have hau : a.url ≠ u := by
        intro he
        rw [he, h] at hnot
        simp at hnot
      have ihr := ih (seen ++ [a.url]) (idx.mark_crawled a.url
        (some [("source", some site_name), ("published_date", a.published_date)]))
        (is_crawled_mark_mono idx a.url _ u h)
      refine ⟨?_, ihr.2⟩
      intro b hb
      rcases List.mem_cons.mp hb with hb | hb
      · exact hb ▸ hau
      · exact ihr.1 b hb
    · rw [if_neg hnew]
      exact ih seen idx h

/-- With the index enabled, every article returned by the site loop has a
URL the starting index did not know. -/
theorem crawlAllSitesAux_excludes_known
    (sites : List (String × List CrawledArticle)) (acc : List CrawledArticle)
    (seen : List String) (idx : URLIndex) (u : String)
    (h : idx.is_crawled u = true) (hacc : ∀ a ∈ acc, a.url ≠ u) :
    ∀ a ∈ (crawlAllSitesAux true sites acc seen idx).1, a.url ≠ u := by
  induction sites generalizing acc seen idx with
  | nil => simpa [crawlAllSitesAux] using hacc
  | cons s rest ih =>
    obtain ⟨site_name, articles⟩ := s
    simp only [crawlAllSitesAux, if_true]
    have hf := filterNewArticles_excludes_known site_name articles seen idx u h
    refine ih _ _ _ hf.2 ?_
    intro a ha
    rcases List.mem_append.mp ha with ha | ha
    · exact hacc a ha
    · exact hf.1 a ha

/-- C4: once a URL is marked known, it stays known across any reset-free
sequence of further mark operations; a subsequent incremental crawl with
the index enabled excludes it from its output; and reset clears it. -/
theorem C4_marked_url_stays_known_and_excluded (idx : URLIndex) (u : String)
    (m : Option URLMeta) (ops : List IndexOp)
    (sites : List (String × List CrawledArticle))
    (hops : IndexOp.resetOp ∉ ops) :
    (applyIndexOps (idx.mark_crawled u m) ops).is_crawled u = true ∧
    (∀ a ∈ (crawl_all_sites sites true (applyIndexOps (idx.mark_crawled u m) ops)).1,
      a.url ≠ u) ∧
    ((applyIndexOps (idx.mark_crawled u m) ops).reset).is_crawled u = false := by
  have hknown : (applyIndexOps (idx.mark_crawled u m) ops).is_crawled u = true :=
    is_crawled_applyIndexOps ops _ u hops (is_crawled_mark_self idx u m)
  refine ⟨hknown, ?_, by simp [URLIndex.reset, URLIndex.is_crawled]⟩
  exact crawlAllSitesAux_excludes_known sites [] [] _ u hknown (by simp)

/-- C4 witness: mark one URL, apply an unrelated mark, crawl a catalog that
re-lists it — the output excludes the marked URL but keeps the fresh one. -/
theorem C4_witness :
    (applyIndexOps (URLIndex.empty.mark_crawled "https://a.example/1" none)
        [IndexOp.markOp "https://a.example/2" none]).is_crawled
        "https://a.example/1" = true ∧
    (∀ a ∈ (crawl_all_sites
        [("SiteA", [{ url := "https://a.example/1", title := "t1",
                      published_date := none, source := "SiteA" },
                    { url := "https://a.example/9", title := "t9",
                      published_date := none, source := "SiteA" }])]
        true
        (applyIndexOps (URLIndex.empty.mark_crawled "https://a.example/1" none)
          [IndexOp.markOp "https://a.example/2" none])).1,
      a.url ≠ "https://a.example/1") :=
  ⟨(C4_marked_url_stays_known_and_excluded URLIndex.empty "https://a.example/1"
      none [IndexOp.markOp "https://a.example/2" none] [] (by decide)).1,
   (C4_marked_url_stays_known_and_excluded URLIndex.empty "https://a.example/1"
      none [IndexOp.markOp "https://a.example/2" none]
      [("SiteA", [{ url := "https://a.example/1", title := "t1",
                    published_date := none, source := "SiteA" },
                  { url := "https://a.example/9", title := "t9",
                    published_date := none, source := "SiteA" }])]
      (by decide)).2.1⟩

/-! ## Sitemap Walker leaf handling (exhaustive_crawler.py, _fetch_sitemap)

A leaf sitemap is the list of its url entries.  The source parses lastmod
with datetime.fromisoformat (after replacing Z by +00:00), makes naive
values UTC, and compares aware datetimes against self.from_date/to_date
(midnight-UTC instants of the configured YYYY-MM-DD bounds).  Instants are
modeled as integer microseconds since 1970-01-01T00:00:00 UTC, which is
exactly the order aware datetimes compare in. -/

/-- One url element of a leaf sitemap: optional loc text and lastmod text. -/
structure SitemapUrlEntry where
  loc : Option String
  lastmod : Option String
deriving DecidableEq, Repr

/-- An aware parsed timestamp: the calendar date as written (as a day
number), the time of day in microseconds, and the UTC offset in
microseconds.  Comparison of aware datetimes is by instant (utcKey);
strftime prints the fields as written (localDays). -/
structure IsoDatetime where
  localDays : Int
  timeMicros : Int
  offsetMicros : Int
deriving DecidableEq, Repr

/-- The instant denoted by an aware timestamp, in microseconds since the
epoch. -/
def IsoDatetime.utcKey (t : IsoDatetime) : Int :=
  t.localDays * 86400000000 + t.timeMicros - t.offsetMicros

/-- An article dict built by the leaf branch of _fetch_sitemap
(published_date holds the day number printed by strftime of one
YYYY-MM-DD date, which is injective on dates). -/
structure SitemapArticle where
  url : String
  title : String
  published_date : Option Int
  source : String
deriving DecidableEq, Repr

/-- Two ASCII digits to a number, with the rest of the input. -/
def twoDigits : List Char → Option (Nat × List Char)
  | a :: b :: rest =>
    if a.isDigit && b.isDigit then
      some ((a.toNat - 48) * 10 + (b.toNat - 48), rest)
    else none
  | _ => none

/-- Four ASCII digits to a number, with the rest of the input. -/
def fourDigits : List Char → Option (Nat × List Char)
  | a :: b :: c :: d :: rest =>
    if a.isDigit && b.isDigit && c.isDigit && d.isDigit then
      some ((((a.toNat - 48) * 10 + (b.toNat - 48)) * 10 + (c.toNat - 48)) * 10
        + (d.toNat - 48), rest)
    else none
  | _ => none

/-- Gregorian leap year. -/
def isLeapYear (y : Nat) : Bool :=
  (y % 4 == 0) && (!(y % 100 == 0) || (y % 400 == 0))

/-- Days in a month of the proleptic Gregorian calendar. -/
def daysInMonth (y m : Nat) : Nat :=
  if m = 2 then (if isLeapYear y then 29 else 28)
  else if m = 4 ∨ m = 6 ∨ m = 9 ∨ m = 11 then 30
  else 31

/-- Day number of a calendar date: days since 1970-01-01 (the standard
civil-from-days algorithm, exact for all years ≥ 1). -/
def daysFromCivil (y m d : Nat) : Int :=
  let y1 := if m ≤ 2 then y - 1 else y
  let era := y1 / 400
  let yoe := y1 - era * 400
  let doy := (153 * ((m + 9) % 12) + 2) / 5 + (d - 1)
  let doe := yoe * 365 + yoe / 4 - yoe / 100 + doy
  ((era * 146097 + doe : Nat) : Int) - 719468

/-- Parse HH:MM[:SS[.<1-6 fraction digits>]] into microseconds-of-day plus
the unconsumed rest, with datetime's field bounds (hour ≤ 23,
minute/second ≤ 59). -/
def parseTimeOfDay (l : List Char) : Option (Nat × List Char) :=
  match twoDigits l with
  | some (hh, ':' :: r1) =>
    (match twoDigits r1 with
     | some (mm, r2) =>
       if hh ≤ 23 && mm ≤ 59 then
         match r2 with
         | ':' :: r3 =>
           (match twoDigits r3 with
            | some (ss, r4) =>
              if ss ≤ 59 then
                match r4 with
                | '.' :: r5 =>
                  let frac := r5.takeWhile Char.isDigit
                  let r6 := r5.dropWhile Char.isDigit
                  if frac.length = 0 ∨ 6 < frac.length then none
                  else
                    some ((hh * 3600 + mm * 60 + ss) * 1000000
                      + (frac.foldl (fun acc c => acc * 10 + (c.toNat - 48)) 0)
                        * 10 ^ (6 - frac.length), r6)
                | _ => some ((hh * 3600 + mm * 60 + ss) * 1000000, r4)
              else none
            | _ => none)
         | _ => some ((hh * 3600 + mm * 60) * 1000000, r2)
       else none
     | none => none)
  | _ => none

/-- Parse the optional trailing UTC offset ±HH:MM[:SS]: absent means a
naive timestamp, which the source converts to UTC (offset 0); anything
else must consume the whole remaining input. -/
def parseOffset : List Char → Option Int
  | [] => some 0
  | '+' :: r =>
    (match parseTimeOfDay r with
     | some (v, []) => some (v : Int)
     | _ => none)
  | '-' :: r =>
    (match parseTimeOfDay r with
     | some (v, []) => some (-(v : Int))
     | _ => none)
  | _ => none

/-- Python's str.replace of Z by +00:00, applied to lastmod before
parsing. -/
def replaceZ : List Char → List Char
  | [] => []
  | c :: rest =>
    if c = 'Z' then '+' :: '0' :: '0' :: ':' :: '0' :: '0' :: replaceZ rest
    else c :: replaceZ rest

/-- datetime.fromisoformat over the documented isoformat grammar: a
calendar-validated YYYY-MM-DD date (years ≥ 1, leap years included),
optionally followed by one separator character (CPython skips dtstr[10]
without checking it) and a HH:MM[:SS[.1-6 fraction digits]] time with an
optional ±HH:MM[:SS] offset.  Anything else raises in the source and lands
in its except-pass branch (CPython versions differ only on fringe forms —
e.g. pre-3.11 restricts fractions to 3 or 6 digits — which no claim
exercises). -/
def fromisoformat (s : String) : Option IsoDatetime :=
  match fourDigits s.data with
  | some (y, '-' :: r1) =>
    (match twoDigits r1 with
     | some (m, '-' :: r2) =>
       (match twoDigits r2 with
        | some (d, rest) =>
          if 1 ≤ y && 1 ≤ m && m ≤ 12 && 1 ≤ d && d ≤ daysInMonth y m then
            match rest with
            | [] => some { localDays := daysFromCivil y m d, timeMicros := 0,
                           offsetMicros := 0 }
            | _sep :: timeRest =>
              (match parseTimeOfDay timeRest with
               | some (micros, r3) =>
                 (match parseOffset r3 with
                  | some off => some { localDays := daysFromCivil y m d,
                                       timeMicros := (micros : Int),
                                       offsetMicros := off }
                  | none => none)
               | none => none)
          else none
        | none => none)
     | _ => none)
  | _ => none

/-- Midnight UTC of a calendar date: the instant the crawler builds from a
configured YYYY-MM-DD bound (strptime then replace(tzinfo=utc)). -/
def utcDateKey (y m d : Nat) : Int :=
  daysFromCivil y m d * 86400000000

/-- Python str.strip. -/
def trimString (s : String) : String := ⟨stripEnds s.data⟩

/-- Body of the per-url loop in the leaf branch of _fetch_sitemap: skip
entries without loc text, apply the allow/block predicate (the compiled
_should_include_url closure is a parameter), parse lastmod with
fromisoformat after the Z-replacement (failures ignored), and drop a dated
entry iff its instant is outside [from_date, to_date]; undated entries are
kept. -/
def processSitemapEntry (from_date to_date : Int)
    (shouldInclude : String → Bool) (e : SitemapUrlEntry) :
    Option SitemapArticle :=
  match e.loc with
  | none => none
  | some locText =>
    if locText = "" then none
    else
      let url_str := trimString locText
      if !(shouldInclude url_str) then none
      else
        let published_date :=
          match e.lastmod with
          | some lm => if lm = "" then none else fromisoformat ⟨replaceZ lm.data⟩
          | none => none
        match published_date with
        | some dt =>
          if from_date ≤ dt.utcKey ∧ dt.utcKey ≤ to_date then
            some { url := url_str, title := "",
                   published_date := some dt.localDays, source := "Sitemap" }
          else none
        | none =>
          some { url := url_str, title := "", published_date := none,
                 source := "Sitemap" }

/-- Leaf branch of _fetch_sitemap over all url entries, in order. -/
def fetchLeafSitemapUrls (from_date to_date : Int)
    (shouldInclude : String → Bool) (entries : List SitemapUrlEntry) :
    List SitemapArticle :=
  entries.filterMap (processSitemapEntry from_date to_date shouldInclude)

/-- The three-entry sitemap of the C7 end-to-end scenario. -/
def c7Entries : List SitemapUrlEntry :=
  [{ loc := some "https://site.example/a1", lastmod := some "2023-01-01" },
   { loc := some "https://site.example/a2", lastmod := some "2023-06-01" },
   { loc := some "https://site.example/a3", lastmod := some "2024-01-01" }]

/-- C7: a leaf-sitemap entry whose parsed lastmod instant lies outside the
inclusive date window is dropped; an entry whose lastmod does not parse is
kept (with no date); and the three-URL scenario over
[2023-01-01, 2023-12-31] yields exactly the first two URLs. -/
theorem C7_leaf_sitemap_date_window (from_date to_date : Int)
    (shouldInclude : String → Bool) (e : SitemapUrlEntry) :
    (∀ lm dt, e.lastmod = some lm →
      fromisoformat ⟨replaceZ lm.data⟩ = some dt →
      (dt.utcKey < from_date ∨ to_date < dt.utcKey) →
      processSitemapEntry from_date to_date shouldInclude e = none) ∧
    (∀ l, e.loc = some l → l ≠ "" → shouldInclude (trimString l) = true →
      (∀ lm, e.lastmod = some lm → fromisoformat ⟨replaceZ lm.data⟩ = none) →
      processSitemapEntry from_date to_date shouldInclude e
        = some { url := trimString l, title := "", published_date := none,
                 source := "Sitemap" }) ∧
    fetchLeafSitemapUrls (utcDateKey 2023 1 1) (utcDateKey 2023 12 31)
        (fun _ => true) c7Entries
      = [{ url := "https://site.example/a1", title := "",
           published_date := some (daysFromCivil 2023 1 1),
           source := "Sitemap" },
         { url := "https://site.example/a2", title := "",
           published_date := some (daysFromCivil 2023 6 1),
           source := "Sitemap" }] := by
  refine ⟨?_, ?_, by decide⟩
  · intro lm dt hlm hd hout
    have hlmne : lm ≠ "" := by
      intro he
      rw [he] at hd
      rw [(by decide : fromisoformat ⟨replaceZ "".data⟩ = none)] at hd
      exact Option.noConfusion hd
    cases hloc : e.loc with
    | none => simp [processSitemapEntry, hloc]
    | some l =>
      by_cases hl : l = ""
      · simp [processSitemapEntry, hloc, hl]
      · by_cases hinc : shouldInclude (trimString l) = true
        · simp only [processSitemapEntry, hloc, hl, if_neg hl, hinc, hlm,
            if_neg hlmne, hd, Bool.not_true, Bool.false_eq_true, if_false]
          have hrange : ¬ (from_date ≤ dt.utcKey ∧ dt.utcKey ≤ to_date) := by
            omega
          simp [hrange]
        · simp only [Bool.not_eq_true] at hinc
          simp [processSitemapEntry, hloc, hl, hinc]
  · intro l hloc hl hinc hnoparse
    simp only [processSitemapEntry, hloc, if_neg hl, hinc, Bool.not_true,
      Bool.false_eq_true, if_false]
    cases hlm : e.lastmod with
    | none => simp
    | some lm =>
      by_cases he : lm = ""
      · simp [he]
      · simp [he, hnoparse lm hlm]

/-- Entry with a full ISO timestamp (Z suffix) outside the 2023 window,
used by the C7 witness. -/
def c7LateTimestamp : SitemapUrlEntry :=
  { loc := some "https://site.example/a3",
    lastmod := some "2024-01-01T12:00:00Z" }

/-- Entry whose lastmod names a calendar-invalid day (February 31), which
fromisoformat rejects, used by the C7 witness. -/
def c7InvalidDay : SitemapUrlEntry :=
  { loc := some "https://site.example/u", lastmod := some "2023-02-31" }

/-- C7 witness: a full ISO timestamp dated 2024 is parsed and dropped from
the 2023 window, and an entry whose lastmod is a calendar-invalid date is
unparseable and kept without a date. -/
theorem C7_witness :
    processSitemapEntry (utcDateKey 2023 1 1) (utcDateKey 2023 12 31)
      (fun _ => true) c7LateTimestamp = none ∧
    processSitemapEntry (utcDateKey 2023 1 1) (utcDateKey 2023 12 31)
      (fun _ => true) c7InvalidDay
      = some { url := "https://site.example/u", title := "",
               published_date := none, source := "Sitemap" } :=
  ⟨(C7_leaf_sitemap_date_window (utcDateKey 2023 1 1) (utcDateKey 2023 12 31)
      (fun _ => true) c7LateTimestamp).1
      "2024-01-01T12:00:00Z"
      { localDays := daysFromCivil 2024 1 1, timeMicros := 43200000000,
        offsetMicros := 0 }
      rfl (by decide) (by decide),
   (C7_leaf_sitemap_date_window (utcDateKey 2023 1 1) (utcDateKey 2023 12 31)
      (fun _ => true) c7InvalidDay).2.1
      "https://site.example/u" rfl (by decide) (by decide)
      (fun lm hlm => by
        simp only [c7InvalidDay, Option.some.injEq] at hlm
        rw [← hlm]
        decide)⟩

/-! ## Semantic search (src/deal_finder/storage/article_cache_chroma.py,
ChromaArticleCache.search_articles_semantic)

The ChromaDB collection.query call is external: its ranked result list is
an input of the model.  Cosine distances are rationals; n_results is
top_k * 2, so the retrieved list has at most 2 * top_k items. -/

/-- One ranked item returned by collection.query (id, document, metadata
and cosine distance). -/
structure ChromaCandidate where
  id : String
  title : String
  document : String
  published_date : String
  source : String
  distance : Rat
deriving DecidableEq, Repr

/-- One article dict appended by search_articles_semantic. -/
structure SearchResult where
  url : String
  title : String
  content_snippet : String
  published_date : String
  source : String
  similarity : Rat
  distance : Rat
deriving DecidableEq, Repr

/-- Everything after the first space (document.split of one space, index 1,
empty when the document has no space). -/
def afterFirstSpace : List Char → List Char
  | [] => []
  | c :: rest => if c = ' ' then rest else afterFirstSpace rest

/-- Build the result dict for one retrieved candidate (similarity is one
minus the cosine distance). -/
def mkSearchResult (c : ChromaCandidate) : SearchResult :=
  { url := c.id, title := c.title,
    content_snippet := ⟨afterFirstSpace c.document.data⟩,
    published_date := c.published_date, source := c.source,
    similarity := 1 - c.distance, distance := c.distance }

/-- The post-query date filter: the continue fires when the metadata date
string compares (Python string order) below start_date or above end_date. -/
def dateInRange (start_date end_date : String) (c : ChromaCandidate) : Bool :=
  !(pyStrLt c.published_date start_date || pyStrLt end_date c.published_date)

/-- The continue that drops a candidate for low similarity: Python's
`if similarity_threshold and similarity < similarity_threshold` — a None
or 0.0 threshold is falsy and disables the filter. -/
def belowThreshold (similarity_threshold : Option Rat) (similarity : Rat) : Bool :=
  match similarity_threshold with
  | some t => !(t == 0) && decide (similarity < t)
  | none => false

/-- The where-clause source filter applied by collection.query. -/
def sourceFilter (sources : Option (List String))
    (candidates : List ChromaCandidate) : List ChromaCandidate :=
  match sources with
  | some ss => candidates.filter (fun c => ss.contains c.source)
  | none => candidates

/-- The result loop of search_articles_semantic: date filter, similarity
filter, append, and break once top_k results are collected. -/
def searchLoop (start_date end_date : String) (top_k : Nat)
    (similarity_threshold : Option Rat) :
    List ChromaCandidate → List SearchResult → List SearchResult
  | [], acc => acc
  | c :: rest, acc =>
    if pyStrLt c.published_date start_date || pyStrLt end_date c.published_date then
      searchLoop start_date end_date top_k similarity_threshold rest acc
    else
      if belowThreshold similarity_threshold (1 - c.distance) then
        searchLoop start_date end_date top_k similarity_threshold rest acc
      else
        let acc1 := acc ++ [mkSearchResult c]
        if top_k ≤ acc1.length then acc1
        else searchLoop start_date end_date top_k similarity_threshold rest acc1

/-- ChromaArticleCache.search_articles_semantic, given the ranked
collection contents (query embedding and ANN ranking are external). -/
def search_articles_semantic (start_date end_date : String)
    (sources : Option (List String)) (top_k : Nat)
    (similarity_threshold : Option Rat)
    (candidates : List ChromaCandidate) : List SearchResult :=
  searchLoop start_date end_date top_k similarity_threshold
    (sourceFilter sources candidates) []

/-- With no threshold, the loop returns the date-filtered prefix up to the
remaining capacity. -/
theorem searchLoop_none_eq (start_date end_date : String) (top_k : Nat)
    (cs : List ChromaCandidate) (acc : List SearchResult)
    (hacc : acc.length < top_k) :
    searchLoop start_date end_date top_k none cs acc
      = acc ++ ((cs.filter (dateInRange start_date end_date)).map
          mkSearchResult).take (top_k - acc.length) := by
  induction cs generalizing acc with
  | nil => simp [searchLoop]
  | cons c rest ih =>
    simp only [searchLoop]
    by_cases hdate : (pyStrLt c.published_date start_date
        || pyStrLt end_date c.published_date) = true
    · rw [if_pos hdate, ih acc hacc]
      have hdr : dateInRange start_date end_date c = false := by
        simp [dateInRange, hdate]
      simp [List.filter_cons, hdr]
    · rw [if_neg hdate,
        if_neg (by simp [belowThreshold] : ¬ belowThreshold none (1 - c.distance) = true)]
      have hdr : dateInRange start_date end_date c = true := by
        simp [dateInRange]
        simp at hdate
        exact hdate
      simp only [List.filter_cons, hdr, if_true, List.map_cons]
      have hlen : (acc ++ [mkSearchResult c]).length = acc.length + 1 := by simp
      by_cases hfull : top_k ≤ (acc ++ [mkSearchResult c]).length
      · rw [if_pos hfull]
        have htk : top_k - acc.length = 1 := by rw [hlen] at hfull; omega
        rw [htk]
        simp
      · rw [if_neg hfull]
        rw [hlen] at hfull
        push_neg at hfull
        rw [ih (acc ++ [mkSearchResult c]) (by rw [hlen]; exact hfull)]
        have htk : top_k - acc.length = (top_k - (acc.length + 1)) + 1 := by omega
        rw [htk, List.take_succ_cons, hlen]
        simp

/-- The loop never grows past top_k once below it. -/
theorem searchLoop_length_le (start_date end_date : String) (top_k : Nat)
    (similarity_threshold : Option Rat) (cs : List ChromaCandidate)
    (acc : List SearchResult) (hacc : acc.length < top_k) :
    (searchLoop start_date end_date top_k similarity_threshold cs acc).length
      ≤ top_k := by
  induction cs generalizing acc with
  | nil => simpa [searchLoop] using Nat.le_of_lt hacc
  | cons c rest ih =>
    simp only [searchLoop]
    by_cases hdate : (pyStrLt c.published_date start_date
        || pyStrLt end_date c.published_date) = true
    · rw [if_pos hdate]
      exact ih acc hacc
    · rw [if_neg hdate]
      by_cases hbt : belowThreshold similarity_threshold (1 - c.distance) = true
      · rw [if_pos hbt]
        exact ih acc hacc
      · rw [if_neg hbt]
        by_cases hfull : top_k ≤ (acc ++ [mkSearchResult c]).length
        · rw [if_pos hfull]
          simp only [List.length_append, List.length_singleton] at hfull ⊢
          omega
        · rw [if_neg hfull]
          refine ih _ ?_
          simp only [List.length_append, List.length_singleton] at hfull ⊢
          omega

/-- C8: a candidate can be dropped for low similarity only when a
minimum-similarity threshold is supplied — with the threshold omitted the
result is exactly the date- and source-filtered retrieved list truncated to
top_k — and the result never exceeds top_k items (the retrieved list has at
most n_results = 2 * top_k entries). -/
theorem C8_similarity_filter_only_when_supplied (start_date end_date : String)
    (sources : Option (List String)) (top_k : Nat)
    (similarity_threshold : Option Rat) (candidates : List ChromaCandidate)
    (hcand : candidates.length ≤ 2 * top_k) :
    (similarity_threshold = none → 1 ≤ top_k →
      search_articles_semantic start_date end_date sources top_k
          similarity_threshold candidates
        = (((sourceFilter sources candidates).filter
            (dateInRange start_date end_date)).map mkSearchResult).take top_k) ∧
    (search_articles_semantic start_date end_date sources top_k
        similarity_threshold candidates).length ≤ top_k := by
  have hsf : (sourceFilter sources candidates).length ≤ 2 * top_k := by
    refine le_trans ?_ hcand
    cases sources with
    | none => simp [sourceFilter]
    | some ss => simpa [sourceFilter] using List.length_filter_le _ candidates
  constructor
  · intro hnone htk
    subst hnone
    rw [search_articles_semantic,
      searchLoop_none_eq start_date end_date top_k _ [] (by simpa using htk)]
    simp
  · rcases Nat.eq_zero_or_pos top_k with h0 | hpos
    · subst h0
      have : sourceFilter sources candidates = [] :=
        List.eq_nil_of_length_eq_zero (Nat.le_zero.mp (by simpa using hsf))
      simp [search_articles_semantic, this, searchLoop]
    · exact searchLoop_length_le start_date end_date top_k similarity_threshold
        _ [] (by simpa using hpos)

/-- Candidate list for the C8 witness: two dated articles from one source. -/
def c8Candidates : List ChromaCandidate :=
  [{ id := "https://s.example/1", title := "t1", document := "t1 body one",
     published_date := "2023-05-01", source := "SiteA", distance := mkRat 1 10 },
   { id := "https://s.example/2", title := "t2", document := "t2 body two",
     published_date := "2020-01-01", source := "SiteA", distance := mkRat 2 10 }]

/-- C8 witness: with no threshold the search returns the date-filtered
top-k unchanged, and the result count is within top_k. -/
theorem C8_witness :
    search_articles_semantic "2021-01-01" "2024-01-01" none 2 none c8Candidates
      = (((sourceFilter none c8Candidates).filter
          (dateInRange "2021-01-01" "2024-01-01")).map mkSearchResult).take 2 ∧
    (search_articles_semantic "2021-01-01" "2024-01-01" none 2 none
        c8Candidates).length ≤ 2 :=
  ⟨(C8_similarity_filter_only_when_supplied "2021-01-01" "2024-01-01" none 2
      none c8Candidates (by decide)).1 rfl (by decide),
   (C8_similarity_filter_only_when_supplied "2021-01-01" "2024-01-01" none 2
      none c8Candidates (by decide)).2⟩

/-- A result appended by the loop passed the date filter, so its date is
not below start_date; an empty date string is below any nonempty one. -/
theorem searchLoop_no_empty_date (start_date end_date : String) (top_k : Nat)
    (similarity_threshold : Option Rat) (hsd : start_date ≠ "")
    (cs : List ChromaCandidate) (acc : List SearchResult)
    (hacc : ∀ r ∈ acc, r.published_date ≠ "") :
    ∀ r ∈ searchLoop start_date end_date top_k similarity_threshold cs acc,
      r.published_date ≠ "" := by
  have hsdata : ∃ c rest, start_date.data = c :: rest := by
    rcases start_date with ⟨data⟩
    cases data with
    | nil => exact absurd (by decide) hsd
    | cons c rest => exact ⟨c, rest, rfl⟩
  induction cs generalizing acc with
  | nil => simpa [searchLoop] using hacc
  | cons c rest ih =>
    simp only [searchLoop]
    by_cases hdate : (pyStrLt c.published_date start_date
        || pyStrLt end_date c.published_date) = true
    · rw [if_pos hdate]
      exact ih acc hacc
    · rw [if_neg hdate]
      have hcd : c.published_date ≠ "" := by
        intro he
        apply hdate
        apply Bool.or_eq_true_iff.mpr
        left
        obtain ⟨ch, chrest, hs⟩ := hsdata
        rw [he]
        simp [pyStrLt, hs, charListLt]
      have hacc1 : ∀ r ∈ acc ++ [mkSearchResult c], r.published_date ≠ "" := by
        intro r hr
        rcases List.mem_append.mp hr with hr | hr
        · exact hacc r hr
        · simp only [List.mem_singleton] at hr
          subst hr
          simpa [mkSearchResult] using hcd
      by_cases hbt : belowThreshold similarity_threshold (1 - c.distance) = true
      · rw [if_pos hbt]
        exact ih acc hacc
      · rw [if_neg hbt]
        by_cases hfull : top_k ≤ (acc ++ [mkSearchResult c]).length
        · rw [if_pos hfull]
          exact hacc1
        · rw [if_neg hfull]
          exact ih _ hacc1

/-- C10: with a nonempty start date, a stored article whose published-date
metadata is the empty string is never returned by semantic search, for any
query ranking, source filter, top_k and threshold: the empty string always
compares below the start date in the post-filter. -/
theorem C10_empty_date_articles_never_returned (start_date end_date : String)
    (sources : Option (List String)) (top_k : Nat)
    (similarity_threshold : Option Rat) (candidates : List ChromaCandidate)
    (hsd : start_date ≠ "") :
    ∀ r ∈ search_articles_semantic start_date end_date sources top_k
        similarity_threshold candidates,
      r.published_date ≠ "" :=
  searchLoop_no_empty_date start_date end_date top_k similarity_threshold hsd
    (sourceFilter sources candidates) [] (by simp)

/-- Candidate with empty published_date for the C10 witness. -/
def c10Undated : ChromaCandidate :=
  { id := "https://s.example/u", title := "tu", document := "tu body",
    published_date := "", source := "SiteA", distance := 0 }

/-- C10 witness: even with a single perfectly similar undated candidate
(distance 0), every result of a search with the default start date carries
a nonempty date. -/
theorem C10_witness :
    (search_articles_semantic "2021-01-01" "2024-01-01" none 5 none
      [c10Undated]).all (fun r => !(r.published_date == "")) = true := by
  apply List.all_eq_true.mpr
  intro r hr
  have hne := C10_empty_date_articles_never_returned "2021-01-01" "2024-01-01"
    none 5 none [c10Undated] (by decide) r hr
  simpa using hne

/-! ## Embedding Indexer (src/deal_finder/storage/embedding_service.py)

The ChromaDB collection seen by the indexer is its id set (upsert by key:
re-upserting an existing id replaces its document, leaving the count
unchanged).  Whether an embedding failure surfaces in the batch upsert
(retried per item by the except branch) or in the per-item call, the
per-URL net effect on both stores is the same, so a per-URL success oracle
embedOk models the external embedding/ChromaDB calls. -/

/-- The vector index: ids present in the articles collection. -/
structure ChromaIndex where
  ids : List String
deriving DecidableEq, Repr

/-- Upsert by key: a present id keeps the count, a new id is appended. -/
def ChromaIndex.upsertId (x : ChromaIndex) (id : String) : ChromaIndex :=
  if x.ids.contains id then x else { ids := x.ids ++ [id] }

/-- collection.count(). -/
def ChromaIndex.count (x : ChromaIndex) : Nat := x.ids.length

/-- The two stores EmbeddingService writes to. -/
structure EmbeddingServiceState where
  content_cache : ContentCache
  chroma : ChromaIndex
deriving DecidableEq, Repr

/-- The counts dict returned by process_pending_articles. -/
structure RunCounts where
  processed : Nat
  succeeded : Nat
  failed : Nat
deriving DecidableEq, Repr

/-- EmbeddingService._process_batch: a row with missing url or content is
marked failed without touching the vector index; otherwise the article is
embedded and upserted (marked embedded) when the external call succeeds and
marked failed with the error otherwise.  Returns (state, succeeded,
failed); now is the mark timestamp. -/
def process_batch (embedOk : String → Bool) (now : String)
    (st : EmbeddingServiceState) :
    List ArticleRow → EmbeddingServiceState × Nat × Nat
  | [] => (st, 0, 0)
  | a :: rest =>
    if a.url = "" ∨ a.content = "" then
      let st1 : EmbeddingServiceState :=
        ⟨st.content_cache.mark_embedded a.url false
          (some "Missing required fields") now, st.chroma⟩
      let res := process_batch embedOk now st1 rest
      (res.1, res.2.1, res.2.2 + 1)
    else if embedOk a.url then
      let st1 : EmbeddingServiceState :=
        ⟨st.content_cache.mark_embedded a.url true none now,
         st.chroma.upsertId a.url⟩
      let res := process_batch embedOk now st1 rest
      (res.1, res.2.1 + 1, res.2.2)
    else
      let st1 : EmbeddingServiceState :=
        ⟨st.content_cache.mark_embedded a.url false
          (some "embedding failed") now, st.chroma⟩
      let res := process_batch embedOk now st1 rest
      (res.1, res.2.1, res.2.2 + 1)

/-- The while loop of process_pending_articles: fetch a batch of pending
rows (limit = min(batch_size, remaining), offset 0), process it, and
continue until the remaining target is exhausted or no pending rows are
left.  Each iteration processes at least one row, so fuel equal to the
initial pending count suffices. -/
def processPendingLoop (embedOk : String → Bool) (now : String)
    (batch_size : Nat) :
    Nat → EmbeddingServiceState → Nat → RunCounts →
      EmbeddingServiceState × RunCounts
  | 0, st, _, acc => (st, acc)
  | _ + 1, st, 0, acc => (st, acc)
  | fuel + 1, st, to_process + 1, acc =>
    let limit := min batch_size (to_process + 1)
    let articles := st.content_cache.get_pending_articles (some limit) 0
    if articles.isEmpty then (st, acc)
    else
      let res := process_batch embedOk now st articles
      processPendingLoop embedOk now batch_size fuel res.1
        (to_process + 1 - articles.length)
        { processed := acc.processed + articles.length,
          succeeded := acc.succeeded + res.2.1,
          failed := acc.failed + res.2.2 }

/-- EmbeddingService.process_pending_articles: read the pending count from
get_stats, return zero counts immediately when nothing is pending, else run
the batch loop over min(pending, max_articles) rows. -/
def process_pending_articles (embedOk : String → Bool) (now : String)
    (st : EmbeddingServiceState) (batch_size : Nat)
    (max_articles : Option Nat) : EmbeddingServiceState × RunCounts :=
  let pending_count := st.content_cache.pendingCount
  if pending_count = 0 then
    (st, { processed := 0, succeeded := 0, failed := 0 })
  else
    let total := match max_articles with
      | some m => min pending_count m
      | none => pending_count
    processPendingLoop embedOk now batch_size total st total
      { processed := 0, succeeded := 0, failed := 0 }

/-- markRow never changes the url. -/
theorem markRow_url (u : String) (b : Bool) (e : Option String) (t : String)
    (r : ArticleRow) : (ContentCache.markRow u b e t r).url = r.url := by
  simp only [ContentCache.markRow]
  split <;> rfl

/-- markRow leaves rows with a different url alone. -/
theorem markRow_of_ne (u : String) (b : Bool) (e : Option String) (t : String)
    (r : ArticleRow) (h : r.url ≠ u) : ContentCache.markRow u b e t r = r := by
  simp [ContentCache.markRow, h]

/-- markRow makes the matching row non-pending. -/
theorem markRow_not_pending (u : String) (b : Bool) (e : Option String)
    (t : String) (r : ArticleRow) (h : r.url = u) :
    (ContentCache.markRow u b e t r).embedding_status ≠ .pending := by
  simp only [ContentCache.markRow, h]
  cases b <;> simp

/-- mark_embedded never changes the url column. -/
theorem mark_embedded_urls (c : ContentCache) (url : String) (b : Bool)
    (e : Option String) (t : String) :
    (c.mark_embedded url b e t).rows.map ArticleRow.url
      = c.rows.map ArticleRow.url := by
  simp only [ContentCache.mark_embedded, List.map_map]
  exact List.map_congr_left (fun r _ => markRow_url url b e t r)

/-- A row with a different url is untouched by mark_embedded. -/
theorem mem_mark_embedded_of_ne (c : ContentCache) (url : String) (b : Bool)
    (e : Option String) (t : String) (r : ArticleRow) (hr : r ∈ c.rows)
    (hne : r.url ≠ url) : r ∈ (c.mark_embedded url b e t).rows := by
  simp only [ContentCache.mark_embedded]
  exact List.mem_map.mpr ⟨r, hr, markRow_of_ne url b e t r hne⟩

/-- Marking the unique pending row with a given url removes exactly one row
from the pending count (list form). -/
theorem pendingCount_mark_aux (u : String) (b : Bool) (e : Option String)
    (t : String) :
    ∀ (rows : List ArticleRow), (rows.map ArticleRow.url).Nodup →
      ∀ r ∈ rows, r.url = u → r.embedding_status = .pending →
      ((rows.map (ContentCache.markRow u b e t)).filter
          (fun x => decide (x.embedding_status = .pending))).length + 1
        = (rows.filter (fun x => decide (x.embedding_status = .pending))).length := by
  intro rows
  induction rows with
  | nil =>
    intro _ r hr
    simp at hr
  | cons s rest ih =>
    intro hnd r hr hru hp
    rw [List.map_cons, List.nodup_cons] at hnd
    by_cases hsu : s.url = u
    · have hrs : r = s := by
        rcases List.mem_cons.mp hr with h | h
        · exact h
        · exact absurd (List.mem_map.mpr ⟨r, h, hru⟩) (hsu ▸ hnd.1)
      have hmap : rest.map (ContentCache.markRow u b e t) = rest := by
        rw [List.map_congr_left
          (fun x hx => markRow_of_ne u b e t x (fun hxu =>
            hnd.1 (hsu ▸ (List.mem_map.mpr ⟨x, hx, hxu⟩))))]
        simp
      have hsp : decide (s.embedding_status = EmbeddingStatus.pending) = true := by
        rw [← hrs, hp]
        rfl
      have hmarked : decide ((ContentCache.markRow u b e t s).embedding_status
          = EmbeddingStatus.pending) = false :=
        decide_eq_false (markRow_not_pending u b e t s hsu)
      simp [List.filter_cons, hsp, hmarked, hmap]
    · have hrrest : r ∈ rest := by
        rcases List.mem_cons.mp hr with h | h
        · exact absurd (h ▸ hru) hsu
        · exact h
      have hs : ContentCache.markRow u b e t s = s := markRow_of_ne u b e t s hsu
      have ihr := ih hnd.2 r hrrest hru hp
      simp only [List.map_cons, hs, List.filter_cons]
      by_cases hsp : decide (s.embedding_status = EmbeddingStatus.pending) = true
      · simp only [hsp, if_true, List.length_cons]
        omega
      · simp only [Bool.not_eq_true] at hsp
        simp only [hsp, Bool.false_eq_true, if_false]
        omega

/-- Marking the unique pending row with a given url removes exactly one row
from the pending count. -/
theorem mark_embedded_pendingCount (c : ContentCache) (u : String) (b : Bool)
    (e : Option String) (t : String) (r : ArticleRow)
    (hnd : (c.rows.map ArticleRow.url).Nodup) (hr : r ∈ c.rows)
    (hru : r.url = u) (hp : r.embedding_status = .pending) :
    (c.mark_embedded u b e t).pendingCount + 1 = c.pendingCount :=
  pendingCount_mark_aux u b e t c.rows hnd r hr hru hp

/-- One mark_embedded step of a batch: urls unchanged, pending count down
by one, and the remaining batch rows still present and pending. -/
theorem mark_step (c : ContentCache) (a : ArticleRow) (rest : List ArticleRow)
    (b : Bool) (e : Option String) (t : String)
    (hnd : (c.rows.map ArticleRow.url).Nodup)
    (hbat : ∀ x ∈ a :: rest, x ∈ c.rows ∧ x.embedding_status = .pending)
    (hbnd : ((a :: rest).map ArticleRow.url).Nodup) :
    ((c.mark_embedded a.url b e t).rows.map ArticleRow.url
        = c.rows.map ArticleRow.url) ∧
    ((c.mark_embedded a.url b e t).pendingCount + 1 = c.pendingCount) ∧
    (∀ x ∈ rest, x ∈ (c.mark_embedded a.url b e t).rows ∧
      x.embedding_status = .pending) := by
  obtain ⟨ha, hap⟩ := hbat a (List.mem_cons_self a rest)
  rw [List.map_cons, List.nodup_cons] at hbnd
  refine ⟨mark_embedded_urls c a.url b e t,
    mark_embedded_pendingCount c a.url b e t a hnd ha rfl hap, ?_⟩
  intro x hx
  have hxne : x.url ≠ a.url := fun hxe =>
    hbnd.1 (hxe ▸ List.mem_map.mpr ⟨x, hx, rfl⟩)
  exact ⟨mem_mark_embedded_of_ne c a.url b e t x
    (hbat x (List.mem_cons_of_mem a hx)).1 hxne,
    (hbat x (List.mem_cons_of_mem a hx)).2⟩

/-- Processing a batch of distinct pending rows marks every one of them
non-pending (pending count drops by the batch size) and never changes the
url column of the content cache. -/
theorem process_batch_drains (embedOk : String → Bool) (now : String) :
    ∀ (batch : List ArticleRow) (st : EmbeddingServiceState),
      (st.content_cache.rows.map ArticleRow.url).Nodup →
      (∀ a ∈ batch, a ∈ st.content_cache.rows ∧ a.embedding_status = .pending) →
      ((batch.map ArticleRow.url).Nodup) →
      (process_batch embedOk now st batch).1.content_cache.pendingCount
          + batch.length = st.content_cache.pendingCount ∧
      (process_batch embedOk now st batch).1.content_cache.rows.map
          ArticleRow.url = st.content_cache.rows.map ArticleRow.url := by
  intro batch
  induction batch with
  | nil =>
    intro st _ _ _
    simp [process_batch]
  | cons a rest ih =>
    intro st hnd hbat hbnd
    have hbnd2 : (rest.map ArticleRow.url).Nodup := by
      rw [List.map_cons, List.nodup_cons] at hbnd
      exact hbnd.2
    simp only [process_batch]
    by_cases hinv : a.url = "" ∨ a.content = ""
    · rw [if_pos hinv]
      obtain ⟨hu1, hc1, hb1⟩ := mark_step st.content_cache a rest false
        (some "Missing required fields") now hnd hbat hbnd
      have ihres := ih ⟨st.content_cache.mark_embedded a.url false
          (some "Missing required fields") now, st.chroma⟩
        (by simpa [hu1] using hnd) hb1 hbnd2
      have ih1 : (process_batch embedOk now
          ⟨st.content_cache.mark_embedded a.url false
            (some "Missing required fields") now, st.chroma⟩
          rest).1.content_cache.pendingCount + rest.length
          = (st.content_cache.mark_embedded a.url false
              (some "Missing required fields") now).pendingCount := ihres.1
      exact ⟨by simp only [List.length_cons]; omega, ihres.2.trans hu1⟩
    · rw [if_neg hinv]
      by_cases hok : embedOk a.url = true
      · rw [if_pos hok]
        obtain ⟨hu1, hc1, hb1⟩ := mark_step st.content_cache a rest true
          none now hnd hbat hbnd
        have ihres := ih ⟨st.content_cache.mark_embedded a.url true none now,
            st.chroma.upsertId a.url⟩
          (by simpa [hu1] using hnd) hb1 hbnd2
        have ih1 : (process_batch embedOk now
            ⟨st.content_cache.mark_embedded a.url true none now,
             st.chroma.upsertId a.url⟩
            rest).1.content_cache.pendingCount + rest.length
            = (st.content_cache.mark_embedded a.url true none
                now).pendingCount := ihres.1
        exact ⟨by simp only [List.length_cons]; omega, ihres.2.trans hu1⟩
      · rw [if_neg hok]
        obtain ⟨hu1, hc1, hb1⟩ := mark_step st.content_cache a rest false
          (some "embedding failed") now hnd hbat hbnd
        have ihres := ih ⟨st.content_cache.mark_embedded a.url false
            (some "embedding failed") now, st.chroma⟩
          (by simpa [hu1] using hnd) hb1 hbnd2
        have ih1 : (process_batch embedOk now
            ⟨st.content_cache.mark_embedded a.url false
              (some "embedding failed") now, st.chroma⟩
            rest).1.content_cache.pendingCount + rest.length
            = (st.content_cache.mark_embedded a.url false
                (some "embedding failed") now).pendingCount := ihres.1
        exact ⟨by simp only [List.length_cons]; omega, ihres.2.trans hu1⟩

/-- Rows returned by a limited get_pending query are pending rows of the
table. -/
theorem get_pending_mem (c : ContentCache) (n : Nat) :
    ∀ r ∈ c.get_pending_articles (some n) 0,
      r ∈ c.rows ∧ r.embedding_status = .pending := by
  intro r hr
  simp only [ContentCache.get_pending_articles] at hr
  have hs : r ∈ ContentCache.sortByFetchedAt
      (c.rows.filter (fun x => decide (x.embedding_status = .pending))) := by
    by_cases hn : n = 0
    · simpa [hn] using hr
    · rw [if_neg hn, List.drop_zero] at hr
      exact List.mem_of_mem_take hr
  have hf := (sortByFetchedAt_perm _).mem_iff.mp hs
  obtain ⟨h1, h2⟩ := List.mem_filter.mp hf
  exact ⟨h1, of_decide_eq_true h2⟩

/-- A limited get_pending result has pairwise distinct urls when the table
does. -/
theorem get_pending_urls_nodup (c : ContentCache) (n : Nat)
    (hnd : (c.rows.map ArticleRow.url).Nodup) :
    ((c.get_pending_articles (some n) 0).map ArticleRow.url).Nodup := by
  have hfil : ((c.rows.filter
      (fun x => decide (x.embedding_status = .pending))).map
        ArticleRow.url).Nodup :=
    ((List.filter_sublist c.rows).map ArticleRow.url).nodup hnd
  have hsort : ((ContentCache.sortByFetchedAt (c.rows.filter
      (fun x => decide (x.embedding_status = .pending)))).map
        ArticleRow.url).Nodup :=
    ((sortByFetchedAt_perm _).map ArticleRow.url).nodup_iff.mpr hfil
  simp only [ContentCache.get_pending_articles]
  by_cases hn : n = 0
  · simpa [hn] using hsort
  · rw [if_neg hn, List.drop_zero]
    exact ((List.take_sublist n _).map ArticleRow.url).nodup hsort

/-- The length of a limited get_pending result is the smaller of the limit
and the pending count. -/
theorem get_pending_length (c : ContentCache) (n : Nat) (hn : n ≠ 0) :
    (c.get_pending_articles (some n) 0).length = min n c.pendingCount := by
  simp only [ContentCache.get_pending_articles, if_neg hn, List.drop_zero,
    List.length_take]
  rw [(sortByFetchedAt_perm _).length_eq]
  rfl

/-- Running the batch loop with fuel covering the whole pending backlog
leaves no pending rows. -/
theorem processPendingLoop_drains (embedOk : String → Bool) (now : String)
    (batch_size : Nat) (hbs : 1 ≤ batch_size) :
    ∀ (fuel : Nat) (st : EmbeddingServiceState) (tp : Nat) (acc : RunCounts),
      (st.content_cache.rows.map ArticleRow.url).Nodup →
      st.content_cache.pendingCount = tp → tp ≤ fuel →
      (processPendingLoop embedOk now batch_size fuel st tp
          acc).1.content_cache.pendingCount = 0 := by
  intro fuel
  induction fuel with
  | zero =>
    intro st tp acc hnd hpc htp
    simp only [processPendingLoop]
    omega
  | succ fuel ih =>
    intro st tp acc hnd hpc htp
    cases tp with
    | zero =>
      simp only [processPendingLoop]
      exact hpc
    | succ k =>
      simp only [processPendingLoop]
      have hlen : (st.content_cache.get_pending_articles
          (some (min batch_size (k + 1))) 0).length = min batch_size (k + 1) := by
        rw [get_pending_length _ _ (by omega), hpc]
        omega
      have hne : (st.content_cache.get_pending_articles
          (some (min batch_size (k + 1))) 0).isEmpty = false := by
        cases harts : st.content_cache.get_pending_articles
            (some (min batch_size (k + 1))) 0 with
        | nil =>
          rw [harts] at hlen
          simp at hlen
          omega
        | cons x xs => rfl
      rw [hne]
      simp only [Bool.false_eq_true, if_false]
      obtain ⟨hdec, hurls⟩ := process_batch_drains embedOk now
        (st.content_cache.get_pending_articles (some (min batch_size (k + 1))) 0)
        st hnd (get_pending_mem st.content_cache _)
        (get_pending_urls_nodup st.content_cache _ hnd)
      refine ih _ _ _ (by simpa [hurls] using hnd) ?_ ?_
      · rw [hlen] at hdec ⊢
        omega
      · rw [hlen]
        omega

/-- Running process_pending_articles to completion (no max cap) leaves no
pending rows in the content cache. -/
theorem process_pending_articles_drains (embedOk : String → Bool)
    (now : String) (st : EmbeddingServiceState) (batch_size : Nat)
    (hnd : (st.content_cache.rows.map ArticleRow.url).Nodup)
    (hbs : 1 ≤ batch_size) :
    (process_pending_articles embedOk now st batch_size
        none).1.content_cache.pendingCount = 0 := by
  simp only [process_pending_articles]
  by_cases h0 : st.content_cache.pendingCount = 0
  · simp [h0]
  · rw [if_neg h0]
    exact processPendingLoop_drains embedOk now batch_size hbs
      st.content_cache.pendingCount st st.content_cache.pendingCount _ hnd
      rfl le_rfl

/-- C3: after one completed run of processPending (no max-items cap), a
second run on the unchanged Content Store returns processed = succeeded =
failed = 0 and leaves the whole state — in particular the vector index and
its item count — unchanged. -/
theorem C3_second_full_run_is_noop (embedOk : String → Bool)
    (now1 now2 : String) (st : EmbeddingServiceState) (batch_size : Nat)
    (hnd : (st.content_cache.rows.map ArticleRow.url).Nodup)
    (hbs : 1 ≤ batch_size) :
    process_pending_articles embedOk now2
        (process_pending_articles embedOk now1 st batch_size none).1
        batch_size none
      = ((process_pending_articles embedOk now1 st batch_size none).1,
         { processed := 0, succeeded := 0, failed := 0 }) ∧
    (process_pending_articles embedOk now2
        (process_pending_articles embedOk now1 st batch_size none).1
        batch_size none).1.chroma.count
      = (process_pending_articles embedOk now1 st batch_size
          none).1.chroma.count := by
  have hdrain := process_pending_articles_drains embedOk now1 st batch_size
    hnd hbs
  set st1 := (process_pending_articles embedOk now1 st batch_size none).1
    with hst1
  constructor
  · simp [process_pending_articles, hdrain]
  · simp [process_pending_articles, hdrain]

/-- The single pending article of the C3 witness store. -/
def c3Row : ArticleRow :=
  { url := "https://a.example/1", title := "t", content := "body",
    published_date := "2023-01-01", source := "S",
    fetched_at := "2023-01-02T00:00:00", embedding_status := .pending,
    embedded_at := none, error_message := none, lastmod := none }

/-- The C3 witness state: one pending article, empty vector index. -/
def c3State : EmbeddingServiceState :=
  { content_cache := { rows := [c3Row] }, chroma := { ids := [] } }

/-- C3 witness: on a one-article store the second full run returns zero
counts and the untouched state. -/
theorem C3_witness :
    process_pending_articles (fun _ => true) "T2"
        (process_pending_articles (fun _ => true) "T1" c3State 10 none).1
        10 none
      = ((process_pending_articles (fun _ => true) "T1" c3State 10 none).1,
         { processed := 0, succeeded := 0, failed := 0 }) :=
  (C3_second_full_run_is_noop (fun _ => true) "T1" "T2" c3State 10
    (by decide) (by decide)).1

/-! ## Near-Duplicate Collapser (src/deal_finder/deduplication/
title_deduplicator.py, TitleDeduplicator.deduplicate)

The sentence-transformer embeddings and the cosine similarity matrix are
external, so the pairwise similarity over input indices is a parameter.
Two articles with identical title and content embed to identical vectors,
so their mutual cosine similarity is 1 and every row of the matrix takes
the same value at both — these facts appear as hypotheses. -/

/-- An article dict fed to the collapser (title and content keys). -/
structure TitleArticle where
  title : String
  content : String
deriving DecidableEq, Repr

/-- len(articles[idx].get("content", "")), the max key of the group. -/
def contentLen (articles : List TitleArticle) (j : Nat) : Nat :=
  ((articles.getD j { title := "", content := "" }).content).length

/-- The indices j ≠ i whose similarity to i strictly exceeds the
threshold (the similar_indices comprehension). -/
def similarIndices (sim : Nat → Nat → Rat) (th : Rat) (n i : Nat) :
    List Nat :=
  (List.range n).filter (fun j => decide (j ≠ i) && decide (th < sim i j))

/-- Python max(group, key=f): the first element with the maximal key. -/
def pyMaxBy (f : Nat → Nat) (x : Nat) (l : List Nat) : Nat :=
  l.foldl (fun b j => if f b < f j then j else b) x

/-- The index loop of TitleDeduplicator.deduplicate: skip seen indices,
group each article with its above-threshold neighbors, mark the group
seen, and keep the longest-content member once.  Returns the seen set and
the kept indices, both in insertion order. -/
def dedupLoop (sim : Nat → Nat → Rat) (th : Rat)
    (articles : List TitleArticle) (n : Nat) :
    List Nat → List Nat → List Nat → List Nat × List Nat
  | [], seen, kept => (seen, kept)
  | i :: rest, seen, kept =>
    if decide (i ∈ seen) then dedupLoop sim th articles n rest seen kept
    else
      let similar := similarIndices sim th n i
      if similar.isEmpty then
        dedupLoop sim th articles n rest (seen ++ [i]) (kept ++ [i])
      else
        let group := i :: similar
        let longest := pyMaxBy (contentLen articles) i similar
        let seen1 := seen ++ group.filter (fun j => decide (j ≠ longest))
        if decide (longest ∈ seen1) then
          dedupLoop sim th articles n rest seen1 kept
        else
          dedupLoop sim th articles n rest (seen1 ++ [longest])
            (kept ++ [longest])

/-- The kept indices of TitleDeduplicator.deduplicate. -/
def titleDedupIndices (sim : Nat → Nat → Rat) (th : Rat)
    (articles : List TitleArticle) : List Nat :=
  (dedupLoop sim th articles articles.length
    (List.range articles.length) [] []).2

/-- TitleDeduplicator.deduplicate given the similarity matrix: the kept
articles in order (the empty-input early return coincides with the loop
over an empty range). -/
def titleDedup (sim : Nat → Nat → Rat) (th : Rat)
    (articles : List TitleArticle) : List TitleArticle :=
  (titleDedupIndices sim th articles).map
    (fun i => articles.getD i { title := "", content := "" })

/-- The python max over a group lands in the group. -/
theorem pyMaxBy_mem (f : Nat → Nat) (x : Nat) (l : List Nat) :
    pyMaxBy f x l ∈ x :: l := by
  induction l generalizing x with
  | nil => simp [pyMaxBy]
  | cons j rest ih =>
    have hstep : pyMaxBy f x (j :: rest)
        = pyMaxBy f (if f x < f j then j else x) rest := rfl
    rw [hstep]
    by_cases hj : f x < f j
    · rw [if_pos hj]
      rcases List.mem_cons.mp (ih j) with h | h
      · rw [h]
        simp
      · exact List.mem_cons_of_mem x (List.mem_cons_of_mem j h)
    · rw [if_neg hj]
      rcases List.mem_cons.mp (ih x) with h | h
      · rw [h]
        simp
      · exact List.mem_cons_of_mem x (List.mem_cons_of_mem j h)

/-- Membership in similarIndices. -/
theorem mem_similarIndices (sim : Nat → Nat → Rat) (th : Rat) (n i j : Nat) :
    j ∈ similarIndices sim th n i ↔ (j < n ∧ j ≠ i ∧ th < sim i j) := by
  simp [similarIndices, List.mem_filter, List.mem_range, and_assoc]

/-- Appending a fresh element preserves Nodup. -/
theorem nodup_append_one (l : List Nat) (a : Nat) (h : l.Nodup)
    (ha : a ∉ l) : (l ++ [a]).Nodup := by
  induction l with
  | nil => simp
  | cons b bs ih =>
    rw [List.nodup_cons] at h
    rw [List.cons_append, List.nodup_cons]
    refine ⟨?_, ih h.2 (fun hm => ha (List.mem_cons_of_mem b hm))⟩
    intro hb
    rcases List.mem_append.mp hb with hb | hb
    · exact h.1 hb
    · simp only [List.mem_singleton] at hb
      exact ha (hb ▸ List.mem_cons_self b bs)

/-- Structural invariants of the dedup loop: the kept list stays
duplicate-free and inside the index range. -/
theorem dedupLoop_wf (sim : Nat → Nat → Rat) (th : Rat)
    (articles : List TitleArticle) (n : Nat) :
    ∀ (is : List Nat), (∀ i ∈ is, i < n) →
    ∀ (seen kept : List Nat), kept.Nodup → (∀ j ∈ kept, j ∈ seen) →
    (∀ j ∈ kept, j < n) →
    (dedupLoop sim th articles n is seen kept).2.Nodup ∧
    (∀ j ∈ (dedupLoop sim th articles n is seen kept).2, j < n) := by
  intro is
  induction is with
  | nil =>
    intro _ seen kept hnd hsub hlt
    exact ⟨hnd, hlt⟩
  | cons i rest ih =>
    intro his seen kept hnd hsub hlt
    have hi : i < n := his i (List.mem_cons_self i rest)
    have hrest : ∀ j ∈ rest, j < n := fun j hj =>
      his j (List.mem_cons_of_mem i hj)
    simp only [dedupLoop]
    by_cases hseen : i ∈ seen
    · rw [if_pos (decide_eq_true hseen)]
      exact ih hrest seen kept hnd hsub hlt
    · rw [if_neg (by simpa using hseen)]
      by_cases hempty : (similarIndices sim th n i).isEmpty = true
      · rw [if_pos hempty]
        refine ih hrest (seen ++ [i]) (kept ++ [i])
          (nodup_append_one kept i hnd (fun hm => hseen (hsub i hm))) ?_ ?_
        · intro j hj
          rcases List.mem_append.mp hj with hj | hj
          · exact List.mem_append_left _ (hsub j hj)
          · exact List.mem_append_right _ hj
        · intro j hj
          rcases List.mem_append.mp hj with hj | hj
          · exact hlt j hj
          · simp only [List.mem_singleton] at hj
            exact hj ▸ hi
      · rw [if_neg hempty]
        have hlong : pyMaxBy (contentLen articles) i
            (similarIndices sim th n i) < n := by
          rcases List.mem_cons.mp (pyMaxBy_mem (contentLen articles) i
            (similarIndices sim th n i)) with h | h
          · rw [h]
            exact hi
          · exact ((mem_similarIndices sim th n i _).mp h).1
        by_cases hls : pyMaxBy (contentLen articles) i
            (similarIndices sim th n i) ∈ seen ++ (i :: similarIndices sim th
              n i).filter (fun j => decide (j ≠ pyMaxBy (contentLen articles)
                i (similarIndices sim th n i)))
        · rw [if_pos (decide_eq_true hls)]
          refine ih hrest _ kept hnd ?_ hlt
          intro j hj
          exact List.mem_append_left _ (hsub j hj)
        · rw [if_neg (by simpa using hls)]
          refine ih hrest _ (kept ++ [pyMaxBy (contentLen articles) i
            (similarIndices sim th n i)]) ?_ ?_ ?_
          · refine nodup_append_one kept _ hnd (fun hm => hls ?_)
            exact List.mem_append_left _ (hsub _ hm)
          · intro j hj
            rcases List.mem_append.mp hj with hj | hj
            · exact List.mem_append_left _ (List.mem_append_left _ (hsub j hj))
            · exact List.mem_append_right _ hj
          · intro j hj
            rcases List.mem_append.mp hj with hj | hj
            · exact hlt j hj
            · simp only [List.mem_singleton] at hj
              exact hj ▸ hlong

/-- isEmpty in propositional form. -/
theorem isEmpty_true_iff (l : List Nat) : l.isEmpty = true ↔ l = [] := by
  cases l <;> simp

/-- The pair invariant of the dedup loop: when two in-range indices p ≠ q
are mutually similar above the threshold and indistinguishable to every
row of the similarity matrix (as identical articles are), every group the
loop forms contains either both or neither, so the loop never keeps both. -/
theorem dedupLoop_pair (sim : Nat → Nat → Rat) (th : Rat)
    (articles : List TitleArticle) (n p q : Nat)
    (hp : p < n) (hq : q < n) (hpq : p ≠ q)
    (hpqs : th < sim p q) (hqps : th < sim q p)
    (hrow : ∀ k, k < n → sim k p = sim k q) :
    ∀ (is : List Nat), (∀ i ∈ is, i < n) →
    ∀ (seen kept : List Nat),
      (∀ j ∈ kept, j ∈ seen) →
      ((p ∈ seen) ↔ (q ∈ seen)) →
      ¬(p ∈ kept ∧ q ∈ kept) →
      ¬(p ∈ (dedupLoop sim th articles n is seen kept).2 ∧
        q ∈ (dedupLoop sim th articles n is seen kept).2) := by
  have hqsim : q ∈ similarIndices sim th n p :=
    (mem_similarIndices sim th n p q).mpr ⟨hq, Ne.symm hpq, hpqs⟩
  have hpsim : p ∈ similarIndices sim th n q :=
    (mem_similarIndices sim th n q p).mpr ⟨hp, hpq, hqps⟩
  intro is
  induction is with
  | nil =>
    intro _ seen kept _ _ hboth
    simpa [dedupLoop] using hboth
  | cons i rest ih =>
    intro his seen kept hsub hiff hboth
    have hi : i < n := his i (List.mem_cons_self i rest)
    have hrest : ∀ j ∈ rest, j < n := fun j hj =>
      his j (List.mem_cons_of_mem i hj)
    simp only [dedupLoop]
    by_cases hseen : i ∈ seen
    · rw [if_pos (decide_eq_true hseen)]
      exact ih hrest seen kept hsub hiff hboth
    · rw [if_neg (by simpa using hseen)]
      have hgi : (p ∈ i :: similarIndices sim th n i)
          ↔ (q ∈ i :: similarIndices sim th n i) := by
        by_cases hip : i = p
        · subst hip
          simp [hqsim, List.mem_cons]
        · by_cases hiq : i = q
          · subst hiq
            simp [hpsim, List.mem_cons]
          · simp only [List.mem_cons, mem_similarIndices]
            constructor
            · rintro (h | h)
              · exact absurd h (fun he => hip he.symm)
              · exact Or.inr ⟨hq, fun he => hiq he.symm,
                  by rw [← hrow i hi]; exact h.2.2⟩
            · rintro (h | h)
              · exact absurd h (fun he => hiq he.symm)
              · exact Or.inr ⟨hp, fun he => hip he.symm,
                  by rw [hrow i hi]; exact h.2.2⟩
      by_cases hempty : (similarIndices sim th n i).isEmpty = true
      · rw [if_pos hempty]
        have hip : i ≠ p := by
          intro he
          subst he
          rw [(isEmpty_true_iff _).mp hempty] at hqsim
          exact absurd hqsim (List.not_mem_nil q)
        have hiq : i ≠ q := by
          intro he
          subst he
          rw [(isEmpty_true_iff _).mp hempty] at hpsim
          exact absurd hpsim (List.not_mem_nil p)
        refine ih hrest (seen ++ [i]) (kept ++ [i]) ?_ ?_ ?_
        · intro j hj
          rcases List.mem_append.mp hj with hj | hj
          · exact List.mem_append_left _ (hsub j hj)
          · exact List.mem_append_right _ hj
        · simp only [List.mem_append, List.mem_singleton]
          rw [or_iff_left (show ¬ p = i from fun h => hip h.symm),
            or_iff_left (show ¬ q = i from fun h => hiq h.symm)]
          exact hiff
        · simp only [List.mem_append, List.mem_singleton]
          rw [or_iff_left (show ¬ p = i from fun h => hip h.symm),
            or_iff_left (show ¬ q = i from fun h => hiq h.symm)]
          exact hboth
      · rw [if_neg hempty]
        have hLmem := pyMaxBy_mem (contentLen articles) i
          (similarIndices sim th n i)
        have hmem1 : ∀ x, x ∈ seen ++ (i :: similarIndices sim th n i).filter
            (fun j => decide (j ≠ pyMaxBy (contentLen articles) i
              (similarIndices sim th n i)))
            ↔ (x ∈ seen ∨ (x ∈ i :: similarIndices sim th n i ∧
                x ≠ pyMaxBy (contentLen articles) i
                  (similarIndices sim th n i))) := by
          intro x
          simp [List.mem_append, List.mem_filter]
        by_cases hLs : pyMaxBy (contentLen articles) i
            (similarIndices sim th n i) ∈ seen ++ (i :: similarIndices sim th
              n i).filter (fun j => decide (j ≠ pyMaxBy (contentLen articles)
                i (similarIndices sim th n i)))
        · rw [if_pos (decide_eq_true hLs)]
          have hLseen : pyMaxBy (contentLen articles) i
              (similarIndices sim th n i) ∈ seen := by
            rcases (hmem1 _).mp hLs with h | h
            · exact h
            · exact absurd rfl h.2
          refine ih hrest _ kept
            (fun j hj => List.mem_append_left _ (hsub j hj)) ?_ hboth
          by_cases hLp : pyMaxBy (contentLen articles) i
              (similarIndices sim th n i) = p
          · have hps : p ∈ seen := hLp ▸ hLseen
            have hqs : q ∈ seen := hiff.mp hps
            constructor
            · intro _
              exact List.mem_append_left _ hqs
            · intro _
              exact List.mem_append_left _ hps
          · by_cases hLq : pyMaxBy (contentLen articles) i
                (similarIndices sim th n i) = q
            · have hqs : q ∈ seen := hLq ▸ hLseen
              have hps : p ∈ seen := hiff.mpr hqs
              constructor
              · intro _
                exact List.mem_append_left _ hqs
              · intro _
                exact List.mem_append_left _ hps
            · rw [hmem1 p, hmem1 q]
              have hpL : (p ≠ pyMaxBy (contentLen articles) i
                  (similarIndices sim th n i)) := fun h => hLp h.symm
              have hqL : (q ≠ pyMaxBy (contentLen articles) i
                  (similarIndices sim th n i)) := fun h => hLq h.symm
              rw [and_iff_left hpL, and_iff_left hqL]
              exact or_congr hiff hgi
        · rw [if_neg (by simpa using hLs)]
          by_cases hLp : pyMaxBy (contentLen articles) i
              (similarIndices sim th n i) = p
          · refine ih hrest _ (kept ++ [pyMaxBy (contentLen articles) i
              (similarIndices sim th n i)]) ?_ ?_ ?_
            · intro j hj
              rcases List.mem_append.mp hj with hj | hj
              · exact List.mem_append_left _
                  (List.mem_append_left _ (hsub j hj))
              · exact List.mem_append_right _ hj
            · have hqgroup : q ∈ i :: similarIndices sim th n i :=
                hgi.mp (hLp ▸ hLmem)
              have hqseen1 : q ∈ seen ++ (i :: similarIndices sim th
                  n i).filter (fun j => decide (j ≠ pyMaxBy
                    (contentLen articles) i (similarIndices sim th n i))) :=
                (hmem1 q).mpr (Or.inr ⟨hqgroup,
                  fun he => hpq ((hLp ▸ he : q = p)).symm⟩)
              constructor
              · intro _
                exact List.mem_append_left _ hqseen1
              · intro _
                exact List.mem_append_right _ (by simp [hLp])
            · rintro ⟨hpk, hqk⟩
              rcases List.mem_append.mp hqk with hqk | hqk
              · have : p ∈ seen := hiff.mpr (hsub q hqk)
                exact hLs ((hmem1 _).mpr (Or.inl (hLp ▸ this)))
              · simp only [List.mem_singleton] at hqk
                exact hpq ((hqk.trans hLp)).symm
          · by_cases hLq : pyMaxBy (contentLen articles) i
                (similarIndices sim th n i) = q
            · refine ih hrest _ (kept ++ [pyMaxBy (contentLen articles) i
                (similarIndices sim th n i)]) ?_ ?_ ?_
              · intro j hj
                rcases List.mem_append.mp hj with hj | hj
                · exact List.mem_append_left _
                    (List.mem_append_left _ (hsub j hj))
                · exact List.mem_append_right _ hj
              · have hpgroup : p ∈ i :: similarIndices sim th n i :=
                  hgi.mpr (hLq ▸ hLmem)
                have hpseen1 : p ∈ seen ++ (i :: similarIndices sim th
                    n i).filter (fun j => decide (j ≠ pyMaxBy
                      (contentLen articles) i (similarIndices sim th n i))) :=
                  (hmem1 p).mpr (Or.inr ⟨hpgroup,
                    fun he => hpq ((hLq ▸ he : p = q))⟩)
                constructor
                · intro _
                  exact List.mem_append_right _ (by simp [hLq])
                · intro _
                  exact List.mem_append_left _ hpseen1
              · rintro ⟨hpk, hqk⟩
                rcases List.mem_append.mp hpk with hpk | hpk
                · have : q ∈ seen := hiff.mp (hsub p hpk)
                  exact hLs ((hmem1 _).mpr (Or.inl (hLq ▸ this)))
                · simp only [List.mem_singleton] at hpk
                  exact hpq (hpk.trans hLq)
            · have hpL : (p ≠ pyMaxBy (contentLen articles) i
                  (similarIndices sim th n i)) := fun h => hLp h.symm
              have hqL : (q ≠ pyMaxBy (contentLen articles) i
                  (similarIndices sim th n i)) := fun h => hLq h.symm
              refine ih hrest _ (kept ++ [pyMaxBy (contentLen articles) i
                (similarIndices sim th n i)]) ?_ ?_ ?_
              · intro j hj
                rcases List.mem_append.mp hj with hj | hj
                · exact List.mem_append_left _
                    (List.mem_append_left _ (hsub j hj))
                · exact List.mem_append_right _ hj
              · simp only [List.mem_append, List.mem_singleton]
                rw [or_iff_left hpL, or_iff_left hqL]
                have hpfil : (p ∈ List.filter (fun j => decide (j ≠ pyMaxBy
                    (contentLen articles) i (similarIndices sim th n i)))
                      (i :: similarIndices sim th n i))
                    ↔ (p ∈ i :: similarIndices sim th n i) := by
                  simp [List.mem_filter, hpL]
                have hqfil : (q ∈ List.filter (fun j => decide (j ≠ pyMaxBy
                    (contentLen articles) i (similarIndices sim th n i)))
                      (i :: similarIndices sim th n i))
                    ↔ (q ∈ i :: similarIndices sim th n i) := by
                  simp [List.mem_filter, hqL]
                exact or_congr hiff (hpfil.trans (hgi.trans hqfil.symm))
              · simp only [List.mem_append, List.mem_singleton]
                rw [or_iff_left hpL, or_iff_left hqL]
                exact hboth

/-- On a two-element list of one repeated article whose self-similarity
exceeds the threshold, the loop keeps exactly the first copy. -/
theorem titleDedup_pair_eq (sim : Nat → Nat → Rat) (th : Rat)
    (x : TitleArticle) (h01 : th < sim 0 1) :
    titleDedup sim th [x, x] = [x] := by
  have hsimilar : similarIndices sim th 2 0 = [1] := by
    simp [similarIndices, List.range_succ, decide_eq_true h01]
  have hmax : pyMaxBy (contentLen [x, x]) 0 [1] = 0 := by
    simp [pyMaxBy, contentLen]
  have hloop : dedupLoop sim th [x, x] 2 [0, 1] [] [] = ([1, 0], [0]) := by
    simp [dedupLoop, hsimilar, hmax]
  simp [titleDedup, titleDedupIndices, show List.range 2 = [0, 1] from rfl,
    hloop]

/-- C5 (amended): for any input list containing two distinct positions
holding articles with identical title and content (mutual similarity 1,
identical similarity rows), the collapser keeps at most one of the two —
never both; the output never exceeds the input count and consists of input
articles; and on the two-element list of the pair it returns exactly the
first copy. -/
theorem C5_amended_near_duplicate_collapse (sim : Nat → Nat → Rat) (th : Rat)
    (articles : List TitleArticle) (p q : Nat)
    (hp : p < articles.length) (hq : q < articles.length) (hpq : p ≠ q)
    (hth : th < 1) (h1 : sim p q = 1) (h2 : sim q p = 1)
    (hrow : ∀ k, k < articles.length → sim k p = sim k q) :
    ¬(p ∈ titleDedupIndices sim th articles ∧
      q ∈ titleDedupIndices sim th articles) ∧
    (titleDedup sim th articles).length ≤ articles.length ∧
    (∀ a ∈ titleDedup sim th articles, a ∈ articles) ∧
    (∀ x : TitleArticle, articles = [x, x] →
      titleDedup sim th articles = [x]) := by
  have hwf := dedupLoop_wf sim th articles articles.length
    (List.range articles.length) (fun i hi => List.mem_range.mp hi)
    [] [] (by simp) (by simp) (by simp)
  refine ⟨?_, ?_, ?_, ?_⟩
  · exact dedupLoop_pair sim th articles articles.length p q hp hq hpq
      (by rw [h1]; exact hth) (by rw [h2]; exact hth) hrow
      (List.range articles.length) (fun i hi => List.mem_range.mp hi)
      [] [] (by simp) (by simp) (by simp)
  · have hsub : (dedupLoop sim th articles articles.length
        (List.range articles.length) [] []).2 ⊆ List.range articles.length :=
      fun j hj => List.mem_range.mpr (hwf.2 j hj)
    have hle := (hwf.1.subperm hsub).length_le
    simpa [titleDedup, titleDedupIndices, List.length_range] using hle
  · intro a ha
    obtain ⟨i, hik, rfl⟩ := List.mem_map.mp ha
    have hin : i < articles.length := hwf.2 i hik
    rw [List.getD_eq_getElem _ _ hin]
    exact List.getElem_mem hin
  · intro x harts
    subst harts
    have hp2 : p < 2 := by simpa using hp
    have hq2 : q < 2 := by simpa using hq
    have hcases : (p = 0 ∧ q = 1) ∨ (p = 1 ∧ q = 0) := by omega
    rcases hcases with ⟨hp0, hq1⟩ | ⟨hp1, hq0⟩
    · subst hp0
      subst hq1
      exact titleDedup_pair_eq sim th x (by rw [h1]; exact hth)
    · subst hp1
      subst hq0
      exact titleDedup_pair_eq sim th x (by rw [h2]; exact hth)

/-- Similarity matrix of the C5 witness: the two copies at indices 0 and 1
embed identically (mutual similarity 1). -/
def c5Sim : Nat → Nat → Rat
  | 0, 0 => 1
  | 0, 1 => 1
  | 1, 0 => 1
  | 1, 1 => 1
  | _, _ => 0

/-- The repeated article of the C5 witness. -/
def c5Art : TitleArticle := { title := "t", content := "c" }

/-- C5 witness: the two-element list of one repeated article collapses to
exactly one copy. -/
theorem C5_witness : titleDedup c5Sim 0 [c5Art, c5Art] = [c5Art] :=
  (C5_amended_near_duplicate_collapse c5Sim 0 [c5Art, c5Art] 0 1
    (by decide) (by decide) (by decide) (by decide) rfl rfl
    (by decide)).2.2.2 c5Art rfl

/-- The duplicated article of the C5 counterexample. -/
def c5ArtA : TitleArticle := { title := "deal news", content := "body" }

/-- The longer absorbing article of the C5 counterexample. -/
def c5ArtC : TitleArticle :=
  { title := "deal news update", content := "body extended words" }

/-- Similarity matrix of the C5 counterexample, realizable as cosine
similarities (vectors v0 = v1, and v2 at angle arccos 0.9 to them):
the identical articles at indices 0 and 1 have mutual similarity 1 and
identical rows, and the third article sits at similarity 9/10 to both —
above the 0.85 threshold. -/
def c5CtrSim : Nat → Nat → Rat
  | 0, 0 => 1
  | 1, 1 => 1
  | 2, 2 => 1
  | 0, 1 => 1
  | 1, 0 => 1
  | 0, 2 => mkRat 9 10
  | 2, 0 => mkRat 9 10
  | 1, 2 => mkRat 9 10
  | 2, 1 => mkRat 9 10
  | _, _ => 0

/-- C5 counterexample: the input list holds two identical articles
(indices 0 and 1, mutual similarity 1, threshold 0.85 < 1), yet the
collapser returns neither of them — the longer third article absorbs their
group — so "returns exactly one of the two" fails on lists with more than
the pair. -/
theorem C5_counterexample_absorbing_third_article :
    c5CtrSim 0 1 = 1 ∧ c5CtrSim 1 0 = 1 ∧
    (∀ k, k < 3 → c5CtrSim k 0 = c5CtrSim k 1) ∧
    (mkRat 85 100 : Rat) < 1 ∧
    titleDedup c5CtrSim (mkRat 85 100) [c5ArtA, c5ArtA, c5ArtC]
      = [c5ArtC] ∧
    c5ArtC ≠ c5ArtA := by
  decide

end DealFinder
